import Mathlib

/-!
Verification development for the goinmonster GraphQL-to-SQL compiler.

The definitions below are a shallow embedding of the Go sources:
  graph/marshal (PostgreSQLMarshaler, WhereClauseBuilder, OrderByBuilder),
  sql/ast/types.go, sql/stringifiers/dialects/postgresql.go (dialect and
  option structures with Validate/BuildSelect/BuildUpdate/BuildDelete),
  graph/conversion.go (SQLConverter), graph/field_collector.go
  (FieldCollector) and the executor loop of graph (executeSelectionSet).

Modelling conventions:
  - Go `interface{}` values are the inductive GoValue; `nil` is GoValue.null.
  - Go maps that the code only reads by key are association lists; Go maps
    that the code ranges over have the range order made explicit, since Go
    randomizes map iteration order (this matters for CollectFields).
  - Mutable receivers become explicit state passing; methods that return a
    Go `error` which is provably always nil are modelled without the error.
  - Go byte-slicing `s[:n]` is modelled on characters; every string the
    claims touch is ASCII, where the two agree.  Out-of-range slicing is a
    runtime panic, modelled by Option/ConvOutcome.panicked.
-/

set_option maxHeartbeats 1000000

namespace Goinmonster

/-- Go interface value as it flows through the marshaler, filters and
arguments.  The float payload is an exact rational standing for a float64;
no claim evaluates float-specific behaviour. -/
inductive GoValue where
  | null
  | str (s : String)
  | int (n : Int)
  | float (q : Rat)
  | bool (b : Bool)
  | timeVal (t : Int)
  | strList (xs : List String)
  | intList (xs : List Int)
  | list (xs : List GoValue)
  | obj (entries : List (String × GoValue))

/-- First-match association-list lookup, modelling a read of a Go map whose
keys are unique. -/
def assocLookup {α : Type} (xs : List (String × α)) (k : String) : Option α :=
  match xs with
  | [] => none
  | (k2, v) :: rest => if k2 == k then some v else assocLookup rest k

/-- goToUpper: character-wise upper-casing, agreeing with the Go
strings.ToUpper on the ASCII strings the code compares. -/
def goToUpper (s : String) : String :=
  String.mk (s.toList.map Char.toUpper)

/-- goToLower: character-wise lower-casing, agreeing with the Go
strings.ToLower on the ASCII type names the code slices. -/
def goToLower (s : String) : String :=
  String.mk (s.toList.map Char.toLower)

/-- PostgreSQLMarshaler from graph/marshal: a placeholder counter plus the
collected parameter list. -/
structure PostgreSQLMarshaler where
  placeholderCounter : Nat
  params : List GoValue

/-- NewPostgreSQLMarshaler: counter 0, empty parameter list. -/
def NewPostgreSQLMarshaler : PostgreSQLMarshaler :=
  { placeholderCounter := 0, params := [] }

/-- Reset: counter back to 0, parameters emptied. -/
def PostgreSQLMarshaler.Reset (_m : PostgreSQLMarshaler) : PostgreSQLMarshaler :=
  { placeholderCounter := 0, params := [] }

/-- Params accessor. -/
def PostgreSQLMarshaler.Params (m : PostgreSQLMarshaler) : List GoValue :=
  m.params

/-- NextPlaceholder: increments the counter and returns the new placeholder
string together with the updated marshaler. -/
def PostgreSQLMarshaler.NextPlaceholder (m : PostgreSQLMarshaler) :
    String × PostgreSQLMarshaler :=
  let c := m.placeholderCounter + 1
  ("$" ++ toString c, { m with placeholderCounter := c })

/-- AddParam: appends the value to params, then issues the next
placeholder. -/
def PostgreSQLMarshaler.AddParam (m : PostgreSQLMarshaler) (v : GoValue) :
    String × PostgreSQLMarshaler :=
  PostgreSQLMarshaler.NextPlaceholder { m with params := m.params ++ [v] }

/-- MarshalValue: nil becomes the literal text NULL without registering a
parameter; every other value kind (each case of the Go type switch,
including the default) calls AddParam.  The Go error result is always nil
and is dropped. -/
def PostgreSQLMarshaler.MarshalValue (m : PostgreSQLMarshaler) (v : GoValue) :
    String × PostgreSQLMarshaler :=
  match v with
  | GoValue.null => ("NULL", m)
  | v => m.AddParam v

/-- MarshalSeq: a sequence of MarshalValue calls on one marshaler, returning
the placeholder texts in call order and the final marshaler state.  This is
the shape of one conversion call after Reset. -/
def MarshalSeq (m : PostgreSQLMarshaler) : List GoValue → List String × PostgreSQLMarshaler
  | [] => ([], m)
  | v :: vs =>
    let r1 := m.MarshalValue v
    let r2 := MarshalSeq r1.2 vs
    (r1.1 :: r2.1, r2.2)

/-- WhereClauseBuilder from graph/marshal: collected condition strings.  The
marshaler it references is passed explicitly. -/
structure WhereClauseBuilder where
  clauses : List String

/-- NewWhereClauseBuilder. -/
def NewWhereClauseBuilder : WhereClauseBuilder := { clauses := [] }

/-- AddCondition: marshals the operand first (unconditionally), then
dispatches on the operator to build the condition text.  For is_null the
placeholder is not used in the text.  The Go error result is always nil and
is dropped. -/
def WhereClauseBuilder.AddCondition (b : WhereClauseBuilder) (m : PostgreSQLMarshaler)
    (column op : String) (value : GoValue) : WhereClauseBuilder × PostgreSQLMarshaler :=
  let r := m.MarshalValue value
  let placeholder := r.1
  let condition :=
    match op with
    | "eq" | "=" => column ++ " = " ++ placeholder
    | "neq" | "!=" | "<>" => column ++ " <> " ++ placeholder
    | "gt" | ">" => column ++ " > " ++ placeholder
    | "gte" | ">=" => column ++ " >= " ++ placeholder
    | "lt" | "<" => column ++ " < " ++ placeholder
    | "lte" | "<=" => column ++ " <= " ++ placeholder
    | "like" => column ++ " LIKE " ++ placeholder
    | "ilike" => column ++ " ILIKE " ++ placeholder
    | "in" => column ++ " = ANY(" ++ placeholder ++ ")"
    | "nin" | "not_in" => column ++ " <> ALL(" ++ placeholder ++ ")"
    | "is_null" =>
      match value with
      | GoValue.bool true => column ++ " IS NULL"
      | _ => column ++ " IS NOT NULL"
    | "contains" => column ++ " @> " ++ placeholder
    | "contained_by" => column ++ " <@ " ++ placeholder
    | _ => column ++ " " ++ op ++ " " ++ placeholder
  ({ clauses := b.clauses ++ [condition] }, r.2)

/-- AddRaw: appends a raw condition string. -/
def WhereClauseBuilder.AddRaw (b : WhereClauseBuilder) (condition : String) :
    WhereClauseBuilder :=
  { clauses := b.clauses ++ [condition] }

/-- Build: AND-joined clause text, empty when no clauses. -/
def WhereClauseBuilder.Build (b : WhereClauseBuilder) : String :=
  match b.clauses with
  | [] => ""
  | _ => String.intercalate " AND " b.clauses

/-- BuildOr: OR-joined clause text wrapped in parentheses, empty when no
clauses. -/
def WhereClauseBuilder.BuildOr (b : WhereClauseBuilder) : String :=
  match b.clauses with
  | [] => ""
  | _ => "(" ++ String.intercalate " OR " b.clauses ++ ")"

/-- OrderByBuilder from graph/marshal: collected ORDER BY column texts. -/
structure OrderByBuilder where
  columns : List String

/-- OrderByBuilder.Add: direction text defaults to ASC and becomes DESC only
when the upper-cased direction argument equals DESC; the direction is baked
into the column text. -/
def OrderByBuilder.Add (b : OrderByBuilder) (column direction : String) : OrderByBuilder :=
  let dir := if goToUpper direction == "DESC" then "DESC" else "ASC"
  { columns := b.columns ++ [column ++ " " ++ dir] }

/-- OrderByBuilder.Build: the collected column texts. -/
def OrderByBuilder.Build (b : OrderByBuilder) : List String :=
  b.columns

/-! SQL intermediate representation (sql/ast/types.go). -/

/-- JoinType from sql/ast/types.go. -/
inductive JoinType where
  | inner | left | right | full | cross | lateral | leftLateral
deriving DecidableEq, Repr

/-- OrderDirection from sql/ast/types.go. -/
inductive OrderDirection where
  | asc | desc
deriving DecidableEq, Repr

/-- JoinColumn from sql/ast/types.go: join kind, target table, alias, ON
text, and the lateral-subquery fields. -/
structure JoinColumn where
  joinType : JoinType := JoinType.inner
  tableName : String := ""
  tableAlias : String := ""
  onCond : String := ""
  subqueryColumns : List String := []
  subqueryWhere : String := ""
  subqueryOrderBy : String := ""
  limit : String := ""
deriving DecidableEq, Repr

/-! Dialect layer (sql/stringifiers/dialects/postgresql.go and
sql/stringifiers/dialecttypes).  The one concrete dialect is PostgreSQL;
its pure formatting functions are embedded directly. -/

/-- ValidationError from dialecttypes. -/
structure ValidationError where
  field : String
  message : String
deriving DecidableEq, Repr

/-- OrderByColumn from dialecttypes. -/
structure OrderByColumn where
  column : String
  direction : OrderDirection
deriving DecidableEq, Repr

/-- PostgreSQLSelectOptions from dialecttypes.  The Go field Where is named
whereList here because where is a Lean keyword. -/
structure PostgreSQLSelectOptions where
  tableName : String := ""
  tableAlias : String := ""
  columns : List String := []
  distinctOn : List String := []
  joins : List JoinColumn := []
  whereList : List String := []
  groupBy : List String := []
  having : List String := []
  orderBy : List OrderByColumn := []
  nullsFirst : Option Bool := none
  limit : String := ""
  offset : String := ""
  forUpdate : Bool := false
  forUpdateOf : List String := []
deriving DecidableEq, Repr

/-- EscapeIdentifier: double every double-quote character (the Go
strings.ReplaceAll with a one-byte pattern, written character-wise). -/
def EscapeIdentifier (identifier : String) : String :=
  String.mk (identifier.toList.flatMap (fun ch =>
    if ch == '"' then ['"', '"'] else [ch]))

/-- QuoteIdentifier: escaped identifier wrapped in double quotes. -/
def QuoteIdentifier (identifier : String) : String :=
  "\"" ++ EscapeIdentifier identifier ++ "\""

/-- FormatJoinType per the PostgreSQL dialect. -/
def FormatJoinType : JoinType → String
  | JoinType.inner => "INNER JOIN"
  | JoinType.left => "LEFT JOIN"
  | JoinType.right => "RIGHT JOIN"
  | JoinType.full => "FULL JOIN"
  | JoinType.cross => "CROSS JOIN"
  | JoinType.lateral => "CROSS JOIN LATERAL"
  | JoinType.leftLateral => "LEFT JOIN LATERAL"

/-- FormatOrderDirection per the PostgreSQL dialect. -/
def FormatOrderDirection : OrderDirection → String
  | OrderDirection.asc => "ASC"
  | OrderDirection.desc => "DESC"

/-- FormatNullsOrder per the PostgreSQL dialect. -/
def FormatNullsOrder : Option Bool → String
  | none => ""
  | some true => "NULLS FIRST"
  | some false => "NULLS LAST"

/-- Mismatch loop of Validate check 2: walking DistinctOn by index, an error
fires (and the loop breaks) at the first index past the end of OrderBy or
whose OrderBy column differs. -/
def distinctOnPrefixMismatch : List String → List OrderByColumn → Bool
  | [], _ => false
  | _ :: _, [] => true
  | c :: cs, ob :: obs => ob.column != c || distinctOnPrefixMismatch cs obs

/-- Validate from dialecttypes: the five active contradiction checks, in
source order, each contributing at most one finding. -/
def PostgreSQLSelectOptions.Validate (o : PostgreSQLSelectOptions) : List ValidationError :=
  (if 0 < o.distinctOn.length && 0 < o.groupBy.length then
    [{ field := "DistinctOn/GroupBy",
       message := "DISTINCT ON and GROUP BY should not be used together; they serve similar purposes" }]
  else []) ++
  (if 0 < o.distinctOn.length && 0 < o.orderBy.length
      && distinctOnPrefixMismatch o.distinctOn o.orderBy then
    [{ field := "DistinctOn/OrderBy",
       message := "ORDER BY must start with DISTINCT ON columns in the same order" }]
  else []) ++
  (if o.forUpdate && o.forUpdateOf.length == 0
      && o.joins.any (fun j => j.joinType == JoinType.left || j.joinType == JoinType.right
                               || j.joinType == JoinType.full) then
    [{ field := "ForUpdate/Join",
       message := "FOR UPDATE is not recommended with LEFT/RIGHT/FULL OUTER JOINs; consider using FOR UPDATE OF specific_table" }]
  else []) ++
  (if 0 < o.having.length && o.groupBy.length == 0 then
    [{ field := "Having", message := "HAVING clause requires GROUP BY" }]
  else []) ++
  (if 0 < o.having.length && o.joins.any (fun j => j.joinType == JoinType.left) then
    [{ field := "Join/Having",
       message := "LEFT JOIN with HAVING on joined table aggregates may indicate INNER JOIN is more appropriate" }]
  else [])

/-- One JOIN clause of BuildSelect: a lateral parenthesized subquery when any
subquery field is set, otherwise table plus alias; the ON text is appended in
both shapes when present. -/
def buildJoinClause (j : JoinColumn) : String :=
  let s := "\n" ++ FormatJoinType j.joinType ++ " "
  let isLateralSubquery := j.limit != "" || 0 < j.subqueryColumns.length
      || j.subqueryWhere != "" || j.subqueryOrderBy != ""
  let s :=
    if isLateralSubquery then
      s ++ "(\n    SELECT "
        ++ (if 0 < j.subqueryColumns.length then String.intercalate ", " j.subqueryColumns else "*")
        ++ "\n    FROM " ++ j.tableName
        ++ (if j.subqueryWhere != "" then "\n    WHERE " ++ j.subqueryWhere else "")
        ++ (if j.subqueryOrderBy != "" then "\n    ORDER BY " ++ j.subqueryOrderBy else "")
        ++ (if j.limit != "" then "\n    LIMIT " ++ j.limit else "")
        ++ "\n)"
        ++ (if j.tableAlias != "" then " " ++ j.tableAlias else "")
    else
      s ++ j.tableName ++ (if j.tableAlias != "" then " " ++ j.tableAlias else "")
  s ++ (if j.onCond != "" then " ON " ++ j.onCond else "")

/-- BuildSelect: validates first, then assembles the statement text in the
fixed clause order; the findings are returned alongside the text. -/
def BuildSelect (opts : PostgreSQLSelectOptions) : String × List ValidationError :=
  let errors := opts.Validate
  let sb := "SELECT "
  let sb := sb ++ (if 0 < opts.distinctOn.length then
      "DISTINCT ON (" ++ String.intercalate ", " opts.distinctOn ++ ") " else "")
  let sb := sb ++ (if 0 < opts.columns.length then String.intercalate ", " opts.columns else "*")
  let sb := sb ++ "\nFROM " ++ opts.tableName
      ++ (if opts.tableAlias != "" then " " ++ opts.tableAlias else "")
  let sb := sb ++ String.join (opts.joins.map buildJoinClause)
  let sb := sb ++ (if 0 < opts.whereList.length then
      "\nWHERE " ++ String.intercalate "\n  AND " opts.whereList else "")
  let sb := sb ++ (if 0 < opts.groupBy.length then
      "\nGROUP BY " ++ String.intercalate ", " opts.groupBy else "")
  let sb := sb ++ (if 0 < opts.having.length then
      "\nHAVING " ++ String.intercalate " AND " opts.having else "")
  let sb := sb ++ (if 0 < opts.orderBy.length then
      "\nORDER BY " ++ String.intercalate ", "
        (opts.orderBy.map (fun o => o.column ++ " " ++ FormatOrderDirection o.direction))
      ++ (match opts.nullsFirst with
          | some b => " " ++ FormatNullsOrder (some b)
          | none => "")
    else "")
  let sb := sb ++ (if opts.limit != "" then "\nLIMIT " ++ opts.limit else "")
  let sb := sb ++ (if opts.offset != "" then " OFFSET " ++ opts.offset else "")
  let sb := sb ++ (if opts.forUpdate then
      "\nFOR UPDATE" ++ (if 0 < opts.forUpdateOf.length then
        " OF " ++ String.intercalate ", " opts.forUpdateOf else "")
    else "")
  (sb, errors)

/-- PostgreSQLUpdateOptions from dialecttypes.  The Go Set map is an
association list; the Go code ranges over it, so the rendered SET order is
the list order here (one admissible Go iteration order). -/
structure PostgreSQLUpdateOptions where
  tableName : String := ""
  tableAlias : String := ""
  setPairs : List (String × String) := []
  whereList : List String := []
  returning : List String := []

/-- BuildUpdate: UPDATE text assembly (the From-join clause is omitted: the
converter never populates it). -/
def BuildUpdate (opts : PostgreSQLUpdateOptions) : String :=
  let sb := "UPDATE " ++ opts.tableName
      ++ (if opts.tableAlias != "" then " " ++ opts.tableAlias else "")
  let sb := sb ++ "\nSET "
      ++ String.intercalate ", " (opts.setPairs.map (fun p => p.1 ++ " = " ++ p.2))
  let sb := sb ++ (if 0 < opts.whereList.length then
      "\nWHERE " ++ String.intercalate "\n  AND " opts.whereList else "")
  sb ++ (if 0 < opts.returning.length then
      "\nRETURNING " ++ String.intercalate ", " opts.returning else "")

/-- PostgreSQLDeleteOptions from dialecttypes (Using is omitted: the
converter never populates it). -/
structure PostgreSQLDeleteOptions where
  tableName : String := ""
  tableAlias : String := ""
  whereList : List String := []
  returning : List String := []

/-- BuildDelete: DELETE text assembly. -/
def BuildDelete (opts : PostgreSQLDeleteOptions) : String :=
  let sb := "DELETE FROM " ++ opts.tableName
      ++ (if opts.tableAlias != "" then " " ++ opts.tableAlias else "")
  let sb := sb ++ (if 0 < opts.whereList.length then
      "\nWHERE " ++ String.intercalate "\n  AND " opts.whereList else "")
  sb ++ (if 0 < opts.returning.length then
      "\nRETURNING " ++ String.intercalate ", " opts.returning else "")

/-! Graph data model (graph/schema.go and the SelectionSet types). -/

/-- TypeRef from graph/schema.go; the Go ListElem pointer is an Option. -/
inductive TypeRef where
  | mk (name : String) (nonNull : Bool) (isList : Bool) (listElem : Option TypeRef)

/-- Walk of unwrapTypeName inside a non-nil reference: a list wrapper is
unwrapped to its element (a nil element is the empty name, the nil case of
the recursive call). -/
def unwrapTypeRefName : TypeRef → String
  | TypeRef.mk name _ isList none => if isList then "" else name
  | TypeRef.mk name _ isList (some t) => if isList then unwrapTypeRefName t else name

/-- unwrapTypeName: nil is the empty name; list wrappers are unwrapped to the
element. -/
def unwrapTypeName : Option TypeRef → String
  | none => ""
  | some t => unwrapTypeRefName t

/-- FieldDefinition from graph/schema.go, restricted to the fields the
converter and collector read (name and declared type). -/
structure FieldDefinition where
  name : String
  type : Option TypeRef

/-- ObjectType from graph/schema.go: name, read-only field table and
implemented interfaces. -/
structure ObjectType where
  name : String
  fields : List (String × FieldDefinition)
  implements : List String

/-- Schema: the read-only object-type table (GetType is the only schema
operation the converter, collector and executor use). -/
structure Schema where
  typeMap : List (String × ObjectType)

/-- Schema.GetType. -/
def Schema.GetType (s : Schema) (name : String) : Option ObjectType :=
  assocLookup s.typeMap name

/-- DirectiveInstance: a non-skip/include directive kept on a collected
field. -/
structure DirectiveInstance where
  name : String
  arguments : List (String × GoValue)

mutual
/-- SelectedField: response name/alias, resolved argument values, the
optional nested selection, and retained directives. -/
inductive SelectedField where
  | mk (name : String) (fieldAlias : String) (arguments : List (String × GoValue))
      (selections : Option SelectionSet) (directives : List DirectiveInstance) : SelectedField
/-- SelectionSet: the collected fields plus the __typename flag. -/
inductive SelectionSet where
  | mk (fields : List SelectedField) (typename : Bool) : SelectionSet
end

/-- Field name accessor. -/
def SelectedField.name : SelectedField → String
  | SelectedField.mk n _ _ _ _ => n

/-- Field alias accessor. -/
def SelectedField.fieldAlias : SelectedField → String
  | SelectedField.mk _ a _ _ _ => a

/-- Field arguments accessor. -/
def SelectedField.arguments : SelectedField → List (String × GoValue)
  | SelectedField.mk _ _ args _ _ => args

/-- Field nested selection accessor. -/
def SelectedField.selections : SelectedField → Option SelectionSet
  | SelectedField.mk _ _ _ sels _ => sels

/-- SelectionSet fields accessor. -/
def SelectionSet.fields : SelectionSet → List SelectedField
  | SelectionSet.mk fs _ => fs

/-- SelectionSet typename-flag accessor. -/
def SelectionSet.typename : SelectionSet → Bool
  | SelectionSet.mk _ t => t

/-- GetName: the alias when set, otherwise the field name. -/
def SelectedField.GetName (sf : SelectedField) : String :=
  if sf.fieldAlias != "" then sf.fieldAlias else sf.name

/-- HasSelection: a non-nil nested selection with at least one field. -/
def SelectedField.HasSelection (sf : SelectedField) : Bool :=
  match sf.selections with
  | none => false
  | some s => 0 < s.fields.length

/-! Query converter (graph/conversion.go). -/

/-- toSnakeCase: an underscore before every upper-case letter except at
index 0, and upper-case letters lowered (byte arithmetic r+32). -/
def toSnakeCase (s : String) : String :=
  String.mk ((s.toList.enum).flatMap (fun p =>
    let i := p.1
    let r := p.2
    let isUpper : Bool := decide ('A' ≤ r) && decide (r ≤ 'Z')
    (if 0 < i && isUpper then ['_'] else [])
      ++ [if isUpper then Char.ofNat (r.toNat + 32) else r]))

/-- goSliceTo models the Go byte-slice s[:n]: defined only when n is at most
the length, a runtime panic (none) otherwise. -/
def goSliceTo (s : String) (n : Nat) : Option String :=
  if n ≤ s.length then some (String.mk (s.toList.take n)) else none

/-- goFormatV models fmt.Sprintf of a value with the %v verb for the value
kinds the converter passes through it.  Only strings, ints and bools reach
it in any claim; aggregate and float renderings are best-effort stand-ins. -/
def goFormatV : GoValue → String
  | GoValue.null => "<nil>"
  | GoValue.str s => s
  | GoValue.int n => toString n
  | GoValue.float q => toString q
  | GoValue.bool b => if b then "true" else "false"
  | GoValue.timeVal t => toString t
  | GoValue.strList xs => "[" ++ String.intercalate " " xs ++ "]"
  | GoValue.intList xs => "[" ++ String.intercalate " " (xs.map toString) ++ "]"
  | GoValue.list _ => "[...]"
  | GoValue.obj _ => "map[...]"

/-- convertGraphQLOperator: GraphQL filter operator aliases to the internal
operator names AddCondition dispatches on. -/
def convertGraphQLOperator (op : String) : String :=
  match op with
  | "_eq" | "eq" => "="
  | "_neq" | "neq" | "_ne" | "ne" => "<>"
  | "_gt" | "gt" => ">"
  | "_gte" | "gte" | "_ge" | "ge" => ">="
  | "_lt" | "lt" => "<"
  | "_lte" | "lte" | "_le" | "le" => "<="
  | "_like" | "like" => "like"
  | "_ilike" | "ilike" => "ilike"
  | "_in" | "in" => "in"
  | "_nin" | "nin" | "_not_in" | "not_in" => "nin"
  | "_is_null" | "is_null" | "isNull" => "is_null"
  | "_contains" | "contains" => "contains"
  | "_contained_by" | "contained_by" | "containedBy" => "contained_by"
  | _ => op

/-- JoinConfig from graph/conversion.go. -/
structure JoinConfig where
  sourceTable : String := ""
  sourceColumn : String := ""
  targetTable : String := ""
  targetColumn : String := ""
  joinType : JoinType := JoinType.inner
  relationType : String := ""
  throughTable : String := ""
  throughSource : String := ""
  throughTarget : String := ""

/-- SQLConverter configuration: schema plus the type-to-table,
type.field-to-column and join-configuration tables.  The dialect is the one
concrete PostgreSQL dialect, whose formatting functions are used directly. -/
structure SQLConverter where
  schema : Schema
  tableMap : List (String × String) := []
  columnMap : List (String × List (String × String)) := []
  joinConfig : List (String × JoinConfig) := []

/-- getTableName: the table override or snake_case of the type name. -/
def SQLConverter.getTableName (c : SQLConverter) (typeName : String) : String :=
  match assocLookup c.tableMap typeName with
  | some table => table
  | none => toSnakeCase typeName

/-- getColumnName: the column override or snake_case of the field name. -/
def SQLConverter.getColumnName (c : SQLConverter) (typeName fieldName : String) : String :=
  match assocLookup c.columnMap typeName with
  | some cols =>
    match assocLookup cols fieldName with
    | some col => col
    | none => toSnakeCase fieldName
  | none => toSnakeCase fieldName

/-- unwrapFieldType: the unwrapped name of a field's declared return type,
empty when the type or field is unknown. -/
def unwrapFieldType (typeName fieldName : String) (schema : Schema) : String :=
  match schema.GetType typeName with
  | some objType =>
    match assocLookup objType.fields fieldName with
    | some field => unwrapTypeName field.type
    | none => ""
  | none => ""

/-- Operator loop of buildWhereFromFilter for a mapped-value condition such
as age maps-to (gt maps-to 18): one AddCondition per operator entry, in the
modelled iteration order of the Go map. -/
def whereOps (column : String) (ops : List (String × GoValue))
    (b : WhereClauseBuilder) (m : PostgreSQLMarshaler) :
    WhereClauseBuilder × PostgreSQLMarshaler :=
  match ops with
  | [] => (b, m)
  | (op, operand) :: rest =>
    let r := b.AddCondition m column (convertGraphQLOperator op) operand
    whereOps column rest r.1 r.2

mutual
/-- buildWhereFromFilter: walks the filter entries (Go map range, modelled
in list order), processing each through whereEntry. -/
def buildWhereFromFilter (c : SQLConverter) (filter : List (String × GoValue))
    (tableAlias : String) (b : WhereClauseBuilder) (m : PostgreSQLMarshaler) :
    WhereClauseBuilder × PostgreSQLMarshaler :=
  match filter with
  | [] => (b, m)
  | (key, value) :: rest =>
    let bm := whereEntry c key value tableAlias b m
    buildWhereFromFilter c rest tableAlias bm.1 bm.2
termination_by sizeOf filter
decreasing_by all_goals (simp_wf <;> omega)

/-- Loop body of buildWhereFromFilter for one filter entry: the _and/_or/
_not combinator keys dispatch to their loops (ignoring values of the wrong
shape, as the Go type assertions do), every other key is a column
condition — operator-mapped when the value is an object, a bare equality
otherwise. -/
def whereEntry (c : SQLConverter) (key : String) (value : GoValue)
    (tableAlias : String) (b : WhereClauseBuilder) (m : PostgreSQLMarshaler) :
    WhereClauseBuilder × PostgreSQLMarshaler :=
  if key == "_and" || key == "AND" then
    match value with
    | GoValue.list conditions => whereAndList c conditions tableAlias b m
    | _ => (b, m)
  else if key == "_or" || key == "OR" then
    match value with
    | GoValue.list conditions =>
      let r := whereOrList c conditions tableAlias NewWhereClauseBuilder m
      (b.AddRaw r.1.BuildOr, r.2)
    | _ => (b, m)
  else if key == "_not" || key == "NOT" then
    match value with
    | GoValue.obj notFilter =>
      let r := buildWhereFromFilter c notFilter tableAlias NewWhereClauseBuilder m
      (b.AddRaw ("NOT (" ++ r.1.Build ++ ")"), r.2)
    | _ => (b, m)
  else
    let column := tableAlias ++ "." ++ QuoteIdentifier (toSnakeCase key)
    match value with
    | GoValue.obj ops => whereOps column ops b m
    | _ => b.AddCondition m column "eq" value
termination_by sizeOf value
decreasing_by all_goals simp_wf

/-- Conjunction loop of the _and/AND case: each object-shaped condition is
folded into the same builder. -/
def whereAndList (c : SQLConverter) (conds : List GoValue) (tableAlias : String)
    (b : WhereClauseBuilder) (m : PostgreSQLMarshaler) :
    WhereClauseBuilder × PostgreSQLMarshaler :=
  match conds with
  | [] => (b, m)
  | GoValue.obj condMap :: rest =>
    let r := buildWhereFromFilter c condMap tableAlias b m
    whereAndList c rest tableAlias r.1 r.2
  | _ :: rest => whereAndList c rest tableAlias b m
termination_by sizeOf conds
decreasing_by all_goals (simp_wf <;> omega)

/-- Disjunction loop of the _or/OR case: each object-shaped condition is
built in its own fresh builder and its AND-joined text added raw to the OR
builder. -/
def whereOrList (c : SQLConverter) (conds : List GoValue) (tableAlias : String)
    (orB : WhereClauseBuilder) (m : PostgreSQLMarshaler) :
    WhereClauseBuilder × PostgreSQLMarshaler :=
  match conds with
  | [] => (orB, m)
  | GoValue.obj condMap :: rest =>
    let r := buildWhereFromFilter c condMap tableAlias NewWhereClauseBuilder m
    whereOrList c rest tableAlias (orB.AddRaw r.1.Build) r.2
  | _ :: rest => whereOrList c rest tableAlias orB m
termination_by sizeOf conds
decreasing_by all_goals (simp_wf <;> omega)
end

/-- Nested fields of a selected field (empty for a nil selection); the Go
code reads field.Selections.Fields only under a HasSelection guard. -/
def subFieldsOf (field : SelectedField) : List SelectedField :=
  match field.selections with
  | some s => s.fields
  | none => []

/-- Join alias of a relation field: first byte of the response name, an
underscore, and the first min(3, len) bytes of the field name.  Slicing the
response name panics (none) when it is empty. -/
def joinAliasOf (field : SelectedField) : Option String :=
  (goSliceTo field.GetName 1).map (fun g =>
    g ++ "_" ++ String.mk (field.name.toList.take (min 3 field.name.length)))

/-- Per-field body of the collectColumnsAndJoins loop: a relation field
(present in the join-configuration table) yields a join (lateral for
hasMany with a non-empty nested selection) plus per-column aliased
selections; any other field yields one plain column selection. -/
def processSelField (c : SQLConverter) (typeName tableAlias : String)
    (field : SelectedField) : Option (List String × List JoinColumn) :=
  match assocLookup c.joinConfig (typeName ++ "." ++ field.name) with
  | some joinCfg =>
    match joinAliasOf field with
    | none => none
    | some joinAlias =>
      let join : JoinColumn :=
        { joinType := joinCfg.joinType,
          tableName := QuoteIdentifier joinCfg.targetTable,
          tableAlias := joinAlias,
          onCond := tableAlias ++ "." ++ QuoteIdentifier joinCfg.sourceColumn ++ " = "
            ++ joinAlias ++ "." ++ QuoteIdentifier joinCfg.targetColumn }
      let join :=
        if joinCfg.relationType == "hasMany" && field.HasSelection then
          { join with
            joinType := JoinType.leftLateral,
            subqueryColumns := (subFieldsOf field).map (fun sub =>
              c.getColumnName (unwrapFieldType typeName field.name c.schema) sub.name),
            subqueryWhere := QuoteIdentifier joinCfg.targetColumn ++ " = " ++ tableAlias
              ++ "." ++ QuoteIdentifier joinCfg.sourceColumn,
            limit :=
              match assocLookup field.arguments "limit" with
              | some v => goFormatV v
              | none => "" }
        else join
      let columns :=
        if field.HasSelection then
          (subFieldsOf field).map (fun sub =>
            joinAlias ++ "."
              ++ QuoteIdentifier (c.getColumnName (unwrapFieldType typeName field.name c.schema) sub.name)
              ++ " AS " ++ joinAlias ++ "_" ++ sub.GetName)
        else []
      some (columns, [join])
  | none =>
    let colName := c.getColumnName typeName field.name
    let colText := tableAlias ++ "." ++ QuoteIdentifier colName
    let colText :=
      if field.fieldAlias != "" && field.fieldAlias != field.name then
        colText ++ " AS " ++ QuoteIdentifier field.fieldAlias
      else colText
    some ([colText], [])

/-- Loop of collectColumnsAndJoins over the selected fields, accumulating
columns and joins in order; a panic in any field aborts. -/
def collectFieldsLoop (c : SQLConverter) (typeName tableAlias : String) :
    List SelectedField → Option (List String × List JoinColumn)
  | [] => some ([], [])
  | field :: rest =>
    match processSelField c typeName tableAlias field with
    | none => none
    | some (cols, js) =>
      match collectFieldsLoop c typeName tableAlias rest with
      | none => none
      | some (cols2, js2) => some (cols ++ cols2, js ++ js2)

/-- collectColumnsAndJoins: nil selection yields empty columns and joins;
otherwise the per-field loop above. -/
def collectColumnsAndJoins (c : SQLConverter) (typeName tableAlias : String) :
    Option SelectionSet → Option (List String × List JoinColumn)
  | none => some ([], [])
  | some ss => collectFieldsLoop c typeName tableAlias ss.fields

/-- orderBy list-form loop: each object entry with a string field adds an
ORDER BY column text (direction baked into the text by OrderByBuilder.Add);
other entries are silently ignored. -/
def processOrderByList (tableAlias : String) (orderList : List GoValue)
    (b : OrderByBuilder) : OrderByBuilder :=
  match orderList with
  | [] => b
  | o :: rest =>
    let b :=
      match o with
      | GoValue.obj orderMap =>
        match assocLookup orderMap "field" with
        | some (GoValue.str f) =>
          let direction :=
            match assocLookup orderMap "direction" with
            | some (GoValue.str d) => d
            | _ => "ASC"
          b.Add (tableAlias ++ "." ++ QuoteIdentifier (toSnakeCase f)) direction
        | _ => b
      | _ => b
    processOrderByList tableAlias rest b

/-- processArguments: where/filter filters through the clause builder, the
id equality shortcut through MarshalValue, limit/first and offset/skip
rendered with goFormatV straight into the options, and orderBy in its
list and single-object forms. -/
def processArguments (c : SQLConverter) (args : List (String × GoValue))
    (opts : PostgreSQLSelectOptions) (m : PostgreSQLMarshaler) :
    PostgreSQLSelectOptions × PostgreSQLMarshaler :=
  let owm := (opts, m)
  let owm :=
    match assocLookup args "where" with
    | some (GoValue.obj whereFilter) =>
      let r := buildWhereFromFilter c whereFilter owm.1.tableAlias NewWhereClauseBuilder owm.2
      (if r.1.Build != "" then
        { owm.1 with whereList := owm.1.whereList ++ [r.1.Build] }
      else owm.1, r.2)
    | _ => owm
  let owm :=
    match assocLookup args "filter" with
    | some (GoValue.obj filterMap) =>
      let r := buildWhereFromFilter c filterMap owm.1.tableAlias NewWhereClauseBuilder owm.2
      (if r.1.Build != "" then
        { owm.1 with whereList := owm.1.whereList ++ [r.1.Build] }
      else owm.1, r.2)
    | _ => owm
  let owm :=
    match assocLookup args "id" with
    | some idv =>
      let r := owm.2.MarshalValue idv
      ({ owm.1 with whereList := owm.1.whereList ++ [owm.1.tableAlias ++ ".id = " ++ r.1] },
       r.2)
    | none => owm
  let owm :=
    match assocLookup args "limit" with
    | some v => ({ owm.1 with limit := goFormatV v }, owm.2)
    | none =>
      match assocLookup args "first" with
      | some v => ({ owm.1 with limit := goFormatV v }, owm.2)
      | none => owm
  let owm :=
    match assocLookup args "offset" with
    | some v => ({ owm.1 with offset := goFormatV v }, owm.2)
    | none =>
      match assocLookup args "skip" with
      | some v => ({ owm.1 with offset := goFormatV v }, owm.2)
      | none => owm
  let owm :=
    match assocLookup args "orderBy" with
    | some (GoValue.list orderList) =>
      let ob := processOrderByList owm.1.tableAlias orderList { columns := [] }
      ({ owm.1 with orderBy := owm.1.orderBy
          ++ ob.Build.map (fun col => { column := col, direction := OrderDirection.asc }) },
       owm.2)
    | some (GoValue.obj orderMap) =>
      match assocLookup orderMap "field" with
      | some (GoValue.str f) =>
        let direction :=
          match assocLookup orderMap "direction" with
          | some (GoValue.str d) =>
            if goToUpper d == "DESC" then OrderDirection.desc else OrderDirection.asc
          | _ => OrderDirection.asc
        ({ owm.1 with orderBy := owm.1.orderBy
            ++ [{ column := owm.1.tableAlias ++ "." ++ QuoteIdentifier (toSnakeCase f),
                  direction := direction }] },
         owm.2)
      | _ => owm
    | _ => owm
  owm

/-- Outcome of a conversion call: a Go runtime panic (out-of-range slice),
a returned error, or success. -/
inductive ConvOutcome (α : Type) where
  | panicked
  | failed (msg : String)
  | ok (a : α)

/-- SQLSelectResult from graph/conversion.go. -/
structure SQLSelectResult where
  query : String
  params : List GoValue
  options : PostgreSQLSelectOptions
  errors : List ValidationError

/-- ConvertToSelect: resets the marshaler, requires a return type, derives
the table name and the single-letter alias from the unwrapped type name
(byte slice typeName[:1], a panic when empty), collects columns and joins,
processes the arguments and builds the statement. -/
def ConvertToSelect (c : SQLConverter) (returnType : Option TypeRef)
    (arguments : List (String × GoValue)) (selection : Option SelectionSet) :
    ConvOutcome SQLSelectResult :=
  match returnType with
  | none => ConvOutcome.failed "cannot determine return type"
  | some rt =>
    let typeName := unwrapTypeName (some rt)
    let tableName := c.getTableName typeName
    match goSliceTo typeName 1 with
    | none => ConvOutcome.panicked
    | some firstChar =>
      let opts : PostgreSQLSelectOptions :=
        { tableName := QuoteIdentifier tableName, tableAlias := goToLower firstChar }
      match collectColumnsAndJoins c typeName opts.tableAlias selection with
      | none => ConvOutcome.panicked
      | some (columns, joins) =>
        let opts := { opts with columns := columns, joins := joins }
        let r := processArguments c arguments opts NewPostgreSQLMarshaler.Reset
        let qe := BuildSelect r.1
        ConvOutcome.ok
          { query := qe.1, params := r.2.Params, options := r.1, errors := qe.2 }

/-- SQLMutationResult from graph/conversion.go. -/
structure SQLMutationResult where
  query : String
  params : List GoValue
  operation : String

/-- SET-clause loop of ConvertToUpdate: marshal each value and record the
quoted column with its placeholder, in the modelled map iteration order. -/
def updateSetLoop (c : SQLConverter) (typeName : String)
    (setEntries : List (String × GoValue)) (m : PostgreSQLMarshaler) :
    List (String × String) × PostgreSQLMarshaler :=
  match setEntries with
  | [] => ([], m)
  | (field, value) :: rest =>
    let r := m.MarshalValue value
    let r2 := updateSetLoop c typeName rest r.2
    ((QuoteIdentifier (c.getColumnName typeName field), r.1) :: r2.1, r2.2)

/-- ConvertToUpdate: resets the marshaler, derives the alias from
typeName[:1] (a panic when typeName is empty), builds SET and WHERE and the
RETURNING columns, then the UPDATE text. -/
def ConvertToUpdate (c : SQLConverter) (typeName : String)
    (whereFilter : List (String × GoValue)) (setEntries : List (String × GoValue))
    (returning : List String) : ConvOutcome SQLMutationResult :=
  let tableName := c.getTableName typeName
  match goSliceTo typeName 1 with
  | none => ConvOutcome.panicked
  | some firstChar =>
    let tableAlias := goToLower firstChar
    let sm := updateSetLoop c typeName setEntries NewPostgreSQLMarshaler.Reset
    let wb := buildWhereFromFilter c whereFilter tableAlias NewWhereClauseBuilder sm.2
    let returningCols := returning.map (fun f => QuoteIdentifier (c.getColumnName typeName f))
    let query := BuildUpdate
      { tableName := QuoteIdentifier tableName, tableAlias := tableAlias,
        setPairs := sm.1, whereList := [wb.1.Build], returning := returningCols }
    ConvOutcome.ok { query := query, params := wb.2.Params, operation := "UPDATE" }

/-- ConvertToDelete: resets the marshaler, derives the alias from
typeName[:1] (a panic when typeName is empty), builds WHERE and RETURNING,
then the DELETE text. -/
def ConvertToDelete (c : SQLConverter) (typeName : String)
    (whereFilter : List (String × GoValue)) (returning : List String) :
    ConvOutcome SQLMutationResult :=
  let tableName := c.getTableName typeName
  match goSliceTo typeName 1 with
  | none => ConvOutcome.panicked
  | some firstChar =>
    let tableAlias := goToLower firstChar
    let wb := buildWhereFromFilter c whereFilter tableAlias NewWhereClauseBuilder
      NewPostgreSQLMarshaler.Reset
    let returningCols := returning.map (fun f => QuoteIdentifier (c.getColumnName typeName f))
    let query := BuildDelete
      { tableName := QuoteIdentifier tableName, tableAlias := tableAlias,
        whereList := [wb.1.Build], returning := returningCols }
    ConvOutcome.ok { query := query, params := wb.2.Params, operation := "DELETE" }

/-! Field collector (graph/field_collector.go).  The document AST mirrors
the gqlparser ast package: values with a kind and raw text, directives,
field/fragment-spread/inline-fragment selections.  Go ranges over the
fieldMap when converting it to the result slice; since Go randomizes map
range order, that order is an explicit parameter ord (any permutation of
the entries is an admissible Go execution). -/

/-- ast.Value: kind plus raw text or children.  varVal is ast.Variable. -/
inductive ASTValue where
  | varVal (raw : String)
  | intVal (raw : String)
  | floatVal (raw : String)
  | stringVal (raw : String)
  | blockVal (raw : String)
  | boolVal (raw : String)
  | nullVal
  | enumVal (raw : String)
  | listVal (children : List ASTValue)
  | objectVal (children : List (String × ASTValue))

/-- Digit loop of parseValue for int64: digits accumulate, a minus sign is
allowed only at index 0, anything else breaks the loop. -/
def parseInt64Loop : List Char → Bool → Int → Int
  | [], _, acc => acc
  | ch :: rest, isFirst, acc =>
    if decide ('0' ≤ ch) && decide (ch ≤ '9') then
      parseInt64Loop rest false (acc * 10 + ((ch.toNat - Char.toNat '0' : Nat) : Int))
    else if isFirst && ch == '-' then
      parseInt64Loop rest false acc
    else acc

/-- parseValue for int64: digit loop, then negation when the first byte is
a minus sign.  (Go int64 wraparound is not modelled; no claim reaches it.) -/
def parseInt64 (s : String) : Int :=
  let v := parseInt64Loop s.toList true 0
  if s.toList.head? == some '-' then -v else v

/-- Digit loop of parseValue for float64, over exact rationals: a dot
switches to fractional mode; non-digit non-dot characters are skipped
without breaking (as in the source). -/
def parseFloatLoop : List Char → Bool → Rat → Rat → Rat
  | [], _, _, val => val
  | ch :: rest, inDecimal, decimal, val =>
    if ch == '.' then parseFloatLoop rest true decimal val
    else if decide ('0' ≤ ch) && decide (ch ≤ '9') then
      if inDecimal then
        let decimal := decimal * 10
        parseFloatLoop rest true decimal
          (val + ((ch.toNat - Char.toNat '0' : Nat) : Rat) / decimal)
      else
        parseFloatLoop rest inDecimal decimal
          (val * 10 + ((ch.toNat - Char.toNat '0' : Nat) : Rat))
    else parseFloatLoop rest inDecimal decimal val

/-- parseValue for float64 (exact-rational shadow of the float64 loop). -/
def parseFloatQ (s : String) : Rat :=
  let v := parseFloatLoop s.toList false 1 0
  if s.toList.head? == some '-' then -v else v

/-- ast.Directive: name and arguments (ForName is assocLookup). -/
structure ASTDirective where
  name : String
  arguments : List (String × ASTValue)

mutual
/-- evaluateValue on a non-nil value: vars resolved from the variable
table (missing gives the nil zero value), numerics through the digit
parsers, booleans by raw-text comparison, lists and objects recursively. -/
def evaluateValueSome (vars : List (String × GoValue)) : ASTValue → GoValue
  | ASTValue.varVal raw =>
    match assocLookup vars raw with
    | some x => x
    | none => GoValue.null
  | ASTValue.intVal raw => GoValue.int (parseInt64 raw)
  | ASTValue.floatVal raw => GoValue.float (parseFloatQ raw)
  | ASTValue.stringVal raw => GoValue.str raw
  | ASTValue.blockVal raw => GoValue.str raw
  | ASTValue.boolVal raw => GoValue.bool (raw == "true")
  | ASTValue.nullVal => GoValue.null
  | ASTValue.enumVal raw => GoValue.str raw
  | ASTValue.listVal children => GoValue.list (evaluateValueList vars children)
  | ASTValue.objectVal children => GoValue.obj (evaluateValueObj vars children)

/-- List children of evaluateValue, in source order. -/
def evaluateValueList (vars : List (String × GoValue)) :
    List ASTValue → List GoValue
  | [] => []
  | cv :: rest => evaluateValueSome vars cv :: evaluateValueList vars rest

/-- Object children of evaluateValue, keyed by child name. -/
def evaluateValueObj (vars : List (String × GoValue)) :
    List (String × ASTValue) → List (String × GoValue)
  | [] => []
  | (n, cv) :: rest => (n, evaluateValueSome vars cv) :: evaluateValueObj vars rest
end

/-- evaluateValue including the nil case. -/
def evaluateValue (vars : List (String × GoValue)) : Option ASTValue → GoValue
  | none => GoValue.null
  | some v => evaluateValueSome vars v

/-- shouldInclude: a skip directive whose if-argument evaluates to the
boolean true, or an include directive whose if-argument evaluates to the
boolean false, excludes the selection; other directives are ignored. -/
def shouldInclude (vars : List (String × GoValue)) : List ASTDirective → Bool
  | [] => true
  | dir :: rest =>
    if dir.name == "skip" then
      match assocLookup dir.arguments "if" with
      | some argVal =>
        match evaluateValueSome vars argVal with
        | GoValue.bool true => false
        | _ => shouldInclude vars rest
      | none => shouldInclude vars rest
    else if dir.name == "include" then
      match assocLookup dir.arguments "if" with
      | some argVal =>
        match evaluateValueSome vars argVal with
        | GoValue.bool false => false
        | _ => shouldInclude vars rest
      | none => shouldInclude vars rest
    else shouldInclude vars rest

/-- collectArguments: each argument value evaluated, keyed by argument
name (argument names are unique in a parsed document). -/
def collectArguments (vars : List (String × GoValue))
    (args : List (String × ASTValue)) : List (String × GoValue) :=
  args.map (fun p => (p.1, evaluateValueSome vars p.2))

/-- collectDirectives: skip and include are dropped; the rest keep their
evaluated arguments. -/
def collectDirectives (vars : List (String × GoValue))
    (dirs : List ASTDirective) : List DirectiveInstance :=
  (dirs.filter (fun d => !(d.name == "skip" || d.name == "include"))).map (fun d =>
    { name := d.name,
      arguments := d.arguments.map (fun p => (p.1, evaluateValueSome vars p.2)) })

/-- ast selections: a field (whose selection set is nil-able), a named
fragment spread, or an inline fragment. -/
inductive ASTSelection where
  | field (fieldAlias name : String) (arguments : List (String × ASTValue))
      (directives : List ASTDirective) (selectionSet : Option (List ASTSelection))
  | fragmentSpread (name : String) (directives : List ASTDirective)
  | inlineFragment (typeCondition : String) (directives : List ASTDirective)
      (selectionSet : List ASTSelection)

/-- ast.FragmentDefinition: name, type condition and body. -/
structure FragmentDefinition where
  name : String
  typeCondition : String
  selectionSet : List ASTSelection

/-- typeApplies: exact match, or the runtime type's declared interface list
contains the condition. -/
def typeApplies (schema : Schema) (fragmentType runtimeType : String) : Bool :=
  if fragmentType == runtimeType then true
  else
    match schema.GetType runtimeType with
    | some objType => objType.implements.contains fragmentType
    | none => false

/-- getFieldTypeName (collector and executor): unwrapped name of the
field's declared type, empty when unknown. -/
def getFieldTypeName (schema : Schema) (parentType fieldName : String) : String :=
  match schema.GetType parentType with
  | some objType =>
    match assocLookup objType.fields fieldName with
    | some field => unwrapTypeName field.type
    | none => ""
  | none => ""

/-- State threaded through collectFieldsImpl: the fieldMap with its
insertion order made explicit, plus the __typename flag of the result. -/
structure CollectState where
  fieldMap : List (String × SelectedField)
  typename : Bool

/-- In-place update of the value stored at a key (the Go code mutates the
SelectedField the map points to). -/
def updateAssoc (k : String) (f : SelectedField → SelectedField) :
    List (String × SelectedField) → List (String × SelectedField)
  | [] => []
  | (k2, v) :: rest =>
    if k2 == k then (k2, f v) :: rest else (k2, v) :: updateAssoc k f rest

/-- Merge step for a repeated response key: the new occurrence's collected
nested fields are appended to the existing field's nested selection set
(created empty first when nil). -/
def appendNested (nested : List SelectedField) (existing : SelectedField) : SelectedField :=
  match existing with
  | SelectedField.mk n a args sels dirs =>
    let cur :=
      match sels with
      | none => SelectionSet.mk [] false
      | some s => s
    SelectedField.mk n a args (some (SelectionSet.mk (cur.fields ++ nested) cur.typename)) dirs

/-- Emission step of CollectFields: the fieldMap is ranged over (order ord,
an arbitrary permutation chosen by the Go runtime) and its values become
the result fields. -/
def emitFields (ord : List (String × SelectedField) → List (String × SelectedField))
    (st : CollectState) : SelectionSet :=
  SelectionSet.mk ((ord st.fieldMap).map Prod.snd) st.typename

/-- collectFieldsImpl plus the CollectFields emission for nested selections,
as one fueled recursion.  Fuel only truncates runs deeper than the document
size plus fragment-expansion depth; gqlparser rejects cyclic fragments, so
every real collection equals the model at sufficient fuel. -/
def collectImpl (ord : List (String × SelectedField) → List (String × SelectedField))
    (schema : Schema) (fragments : List (String × FragmentDefinition))
    (vars : List (String × GoValue)) :
    Nat → List ASTSelection → String → CollectState → CollectState
  | 0, _, _, st => st
  | _ + 1, [], _, st => st
  | fuel + 1, selection :: rest, parentType, st =>
    let st :=
      match selection with
      | ASTSelection.field fieldAlias name args dirs selSet =>
        if !(shouldInclude vars dirs) then st
        else if name == "__typename" then { st with typename := true }
        else
          let responseKey := if fieldAlias == "" then name else fieldAlias
          match assocLookup st.fieldMap responseKey with
          | some _ =>
            match selSet with
            | some ss =>
              let nested := emitFields ord
                (collectImpl ord schema fragments vars fuel ss
                  (getFieldTypeName schema parentType name)
                  { fieldMap := [], typename := false })
              { st with fieldMap :=
                  updateAssoc responseKey (appendNested nested.fields) st.fieldMap }
            | none => st
          | none =>
            let nestedSel : Option SelectionSet :=
              match selSet with
              | some ss =>
                some (emitFields ord
                  (collectImpl ord schema fragments vars fuel ss
                    (getFieldTypeName schema parentType name)
                    { fieldMap := [], typename := false }))
              | none => none
            let field := SelectedField.mk name fieldAlias
              (collectArguments vars args) nestedSel (collectDirectives vars dirs)
            { st with fieldMap := st.fieldMap ++ [(responseKey, field)] }
      | ASTSelection.fragmentSpread name dirs =>
        if !(shouldInclude vars dirs) then st
        else
          match assocLookup fragments name with
          | none => st
          | some fragment =>
            if !(typeApplies schema fragment.typeCondition parentType) then st
            else collectImpl ord schema fragments vars fuel
              fragment.selectionSet parentType st
      | ASTSelection.inlineFragment typeCondition dirs selSet =>
        if !(shouldInclude vars dirs) then st
        else if typeCondition != "" && !(typeApplies schema typeCondition parentType) then st
        else collectImpl ord schema fragments vars fuel selSet parentType st
    collectImpl ord schema fragments vars fuel rest parentType st

/-- CollectFields: nil selection set gives nil; otherwise the impl runs on
an empty state and the fieldMap is emitted in the range order ord. -/
def CollectFields (ord : List (String × SelectedField) → List (String × SelectedField))
    (schema : Schema) (fragments : List (String × FragmentDefinition))
    (vars : List (String × GoValue)) (fuel : Nat)
    (selectionSet : Option (List ASTSelection)) (parentType : String) :
    Option SelectionSet :=
  match selectionSet with
  | none => none
  | some ss =>
    some (emitFields ord
      (collectImpl ord schema fragments vars fuel ss parentType
        { fieldMap := [], typename := false }))

/-! Executor selection-set loop (executeSelectionSet of the graph package).
Resolver lookup, reflection-based default resolution and value completion
are the opaque executeField parameter, whose Go signature returns a value
or an error; the claims about this loop concern only how errors and values
are recorded. -/

/-- One element of a response path: a response key or a list index. -/
inductive PathElem where
  | key (s : String)
  | index (n : Nat)
deriving DecidableEq, Repr

/-- Error as recorded on the request context (message plus path; locations
and extensions are not populated on this code path). -/
structure GError where
  message : String
  path : List PathElem
deriving DecidableEq, Repr

/-- Go map assignment on the result map: overwrite the existing key or
append a new entry. -/
def mapSet (res : List (String × GoValue)) (k : String) (v : GoValue) :
    List (String × GoValue) :=
  match res with
  | [] => [(k, v)]
  | (k2, v2) :: rest => if k2 == k then (k2, v) :: rest else (k2, v2) :: mapSet rest k v

/-- Field loop of executeSelectionSet: on error the field's entry becomes
nil and the error is appended tagged with the field path, and the loop
continues; on success the resolved value is stored. -/
def execFieldsLoop (executeField : SelectedField → String → List PathElem → Except String GoValue)
    (fields : List SelectedField) (parentType : String) (path : List PathElem)
    (acc : List (String × GoValue) × List GError) :
    List (String × GoValue) × List GError :=
  match fields with
  | [] => acc
  | field :: rest =>
    let fieldPath := path ++ [PathElem.key field.GetName]
    let acc :=
      match executeField field parentType fieldPath with
      | Except.error msg =>
        (mapSet acc.1 field.GetName GoValue.null,
         acc.2 ++ [{ message := msg, path := fieldPath }])
      | Except.ok value => (mapSet acc.1 field.GetName value, acc.2)
    execFieldsLoop executeField rest parentType path acc

/-- executeSelectionSet: nil or empty selections yield nil data; otherwise
every field is executed in order and the __typename flag adds the parent
type name.  The loop itself never aborts: its Go error result is always
nil. -/
def executeSelectionSet
    (executeField : SelectedField → String → List PathElem → Except String GoValue)
    (selections : Option SelectionSet) (parentType : String) (path : List PathElem)
    (errs : List GError) : Option (List (String × GoValue)) × List GError :=
  match selections with
  | none => (none, errs)
  | some ss =>
    if ss.fields.length == 0 then (none, errs)
    else
      let r := execFieldsLoop executeField ss.fields parentType path ([], errs)
      let result :=
        if ss.typename then mapSet r.1 "__typename" (GoValue.str parentType) else r.1
      (some result, r.2)

/-! Derived accessors and concrete instances used by the statements below. -/

/-- Suffix the is_null operator emits, by the truthiness test on the
operand. -/
def isNullSuffix : GoValue → String
  | GoValue.bool true => " IS NULL"
  | _ => " IS NOT NULL"

/-- Query text of a successful select conversion. -/
def convOutcomeQuery : ConvOutcome SQLSelectResult → Option String
  | ConvOutcome.ok r => some r.query
  | _ => none

/-- Parameter list of a successful select conversion. -/
def convOutcomeParams : ConvOutcome SQLSelectResult → Option (List GoValue)
  | ConvOutcome.ok r => some r.params
  | _ => none

/-- ORDER BY columns of a successful select conversion. -/
def convOutcomeOrderBy : ConvOutcome SQLSelectResult → Option (List OrderByColumn)
  | ConvOutcome.ok r => some r.options.orderBy
  | _ => none

/-- Converter with an empty schema and no mapping tables. -/
def emptyConverter : SQLConverter := { schema := { typeMap := [] } }

/-- Selection asking for the one scalar field id. -/
def selIdOnly : SelectionSet := SelectionSet.mk [SelectedField.mk "id" "" [] none []] false

/-- Selection asking for the one scalar field name. -/
def selNameOnly : SelectionSet := SelectionSet.mk [SelectedField.mk "name" "" [] none []] false

/-- orderBy argument in list form: one entry, field name with direction
DESC. -/
def argsOrderByList : List (String × GoValue) :=
  [("orderBy", GoValue.list [GoValue.obj [("field", GoValue.str "name"),
    ("direction", GoValue.str "DESC")]])]

/-- orderBy argument in single-object form, direction DESC. -/
def argsOrderByObj : List (String × GoValue) :=
  [("orderBy", GoValue.obj [("field", GoValue.str "name"),
    ("direction", GoValue.str "DESC")])]

/-- Fragment body selecting user, nested id (shape shared by the two
fragments of the duplicate-key document). -/
def fragBodyUser : List ASTSelection :=
  [ASTSelection.field "" "user" [] [] (some [ASTSelection.field "" "id" [] [] none])]

/-- Fragment table with two fragments on Q, both selecting user nested
id. -/
def fragsTwoUser : List (String × FragmentDefinition) :=
  [("F1", { name := "F1", typeCondition := "Q", selectionSet := fragBodyUser }),
   ("F2", { name := "F2", typeCondition := "Q", selectionSet := fragBodyUser })]

/-- Document spreading both fragments. -/
def docTwoSpreads : List ASTSelection :=
  [ASTSelection.fragmentSpread "F1" [], ASTSelection.fragmentSpread "F2" []]

/-- Document with two plain fields a and b. -/
def docTwoFields : List ASTSelection :=
  [ASTSelection.field "" "a" [] [] none, ASTSelection.field "" "b" [] [] none]

/-- hasMany join configuration for User.posts. -/
def userPostsCfg : JoinConfig :=
  { sourceColumn := "id", targetTable := "posts", targetColumn := "user_id",
    joinType := JoinType.left, relationType := "hasMany" }

/-- Converter knowing the User type and its posts relation. -/
def userConverter : SQLConverter :=
  { schema := { typeMap := [("User",
      { name := "User",
        fields := [("posts",
          { name := "posts", type := some (TypeRef.mk "Post" false false none) })],
        implements := [] })] },
    joinConfig := [("User.posts", userPostsCfg)] }

/-- Selected relation field posts with a limit argument and a nested title
selection. -/
def postsField : SelectedField :=
  SelectedField.mk "posts" "" [("limit", GoValue.int 2)]
    (some (SelectionSet.mk [SelectedField.mk "title" "" [] none []] false)) []

/-- Field execution stub: the field named bad fails with boom, every other
field resolves to the integer 1. -/
def execFieldStub : SelectedField → String → List PathElem → Except String GoValue :=
  fun field _ _ =>
    if field.name == "bad" then Except.error "boom" else Except.ok (GoValue.int 1)

/-- Selection with a failing field and a succeeding sibling. -/
def selBadGood : SelectionSet :=
  SelectionSet.mk
    [SelectedField.mk "bad" "" [] none [], SelectedField.mk "good" "" [] none []] false

/-- Invariant of the collector fieldMap: keys are distinct and every stored
field's response name is its key. -/
def FieldMapInv (fm : List (String × SelectedField)) : Prop :=
  (fm.map Prod.fst).Nodup ∧ ∀ p ∈ fm, p.2.GetName = p.1

end Goinmonster

namespace Goinmonster

/-! Supporting lemmas. -/

/-- MarshalValue on a non-nil value is AddParam. -/
theorem MarshalValue_of_ne_null (m : PostgreSQLMarshaler) (v : GoValue)
    (h : v ≠ GoValue.null) : m.MarshalValue v = m.AddParam v := by
  cases v <;> first | exact absurd rfl h | rfl

/-- State evolution of a non-nil marshal sequence from an arbitrary
marshaler: values are appended in order, the counter advances by the
length, and the i-th placeholder is the counter plus i plus one. -/
theorem marshalSeq_spec (vs : List GoValue) (h : ∀ v ∈ vs, v ≠ GoValue.null) :
    ∀ m : PostgreSQLMarshaler,
      (MarshalSeq m vs).2.params = m.params ++ vs ∧
      (MarshalSeq m vs).2.placeholderCounter = m.placeholderCounter + vs.length ∧
      (MarshalSeq m vs).1 = (List.range vs.length).map
        (fun i => "$" ++ toString (m.placeholderCounter + i + 1)) := by
  induction vs with
  | nil => intro m; simp [MarshalSeq]
  | cons v vs ih =>
    intro m
    have hv : v ≠ GoValue.null := h v (List.mem_cons_self v vs)
    have hrest : ∀ w ∈ vs, w ≠ GoValue.null := fun w hw => h w (List.mem_cons_of_mem _ hw)
    obtain ⟨h1, h2, h3⟩ := ih hrest
      { m with placeholderCounter := m.placeholderCounter + 1, params := m.params ++ [v] }
    simp only [MarshalSeq, MarshalValue_of_ne_null m v hv, PostgreSQLMarshaler.AddParam,
      PostgreSQLMarshaler.NextPlaceholder]
    refine ⟨?_, ?_, ?_⟩
    · rw [h1]; simp
    · rw [h2]; simp; omega
    · rw [h3]
      simp only [List.length_cons]
      rw [List.range_succ_eq_map, List.map_cons, List.map_map]
      have harg : ∀ i : Nat,
          m.placeholderCounter + 1 + i + 1 = m.placeholderCounter + (i + 1) + 1 :=
        fun i => by omega
      simp [Function.comp_def, harg]

/-! Claim C1. -/

/-- C1 counterexample: the claim as stated fails on a nil value.  One
MarshalValue call with nil after Reset leaves Params empty (length 0, not
1) and returns the text NULL rather than placeholder $1. -/
theorem C1_counterexample :
    (MarshalSeq NewPostgreSQLMarshaler.Reset [GoValue.null]).2.Params.length = 0 ∧
    (MarshalSeq NewPostgreSQLMarshaler.Reset [GoValue.null]).1 = ["NULL"] ∧
    ¬ ((MarshalSeq NewPostgreSQLMarshaler.Reset [GoValue.null]).2.Params.length = 1 ∧
       (MarshalSeq NewPostgreSQLMarshaler.Reset [GoValue.null]).1 = ["$1"]) := by
  refine ⟨rfl, rfl, ?_⟩
  intro hcl
  exact absurd hcl.1 (by decide)

/-- C1 (amended to non-nil values): for every sequence of non-nil values
passed to MarshalValue on one conversion call after Reset, Params equals
the value sequence — so it has length N and its element at index i-1 is
the i-th value — and the i-th call returns placeholder $i. -/
theorem C1_marshal_placeholder_pairing (vs : List GoValue) (m : PostgreSQLMarshaler)
    (h : ∀ v ∈ vs, v ≠ GoValue.null) :
    (MarshalSeq m.Reset vs).2.Params = vs ∧
    (MarshalSeq m.Reset vs).1 =
      (List.range vs.length).map (fun i => "$" ++ toString (i + 1)) := by
  obtain ⟨h1, h2, h3⟩ := marshalSeq_spec vs h m.Reset
  constructor
  · rw [PostgreSQLMarshaler.Params, h1]
    simp [PostgreSQLMarshaler.Reset]
  · rw [h3]
    simp [PostgreSQLMarshaler.Reset]

/-- C1 witness: two concrete non-nil values yield Params equal to the pair
and placeholders $1, $2. -/
theorem C1_witness :
    (∀ v ∈ [GoValue.int 18, GoValue.str "x"], v ≠ GoValue.null) ∧
    (MarshalSeq NewPostgreSQLMarshaler.Reset [GoValue.int 18, GoValue.str "x"]).2.Params
      = [GoValue.int 18, GoValue.str "x"] ∧
    (MarshalSeq NewPostgreSQLMarshaler.Reset [GoValue.int 18, GoValue.str "x"]).1
      = ["$1", "$2"] := by
  have hnn : ∀ v ∈ [GoValue.int 18, GoValue.str "x"], v ≠ GoValue.null := by
    intro v hv hc
    subst hc
    simp at hv
  obtain ⟨h1, h2⟩ := C1_marshal_placeholder_pairing
    [GoValue.int 18, GoValue.str "x"] NewPostgreSQLMarshaler hnn
  exact ⟨hnn, h1, h2.trans (by rfl)⟩

/-! Claim C10. -/

/-- C10 counterexample: the claim as stated fails for a nil operand.
AddCondition with operator is_null and operand nil registers no parameter
and consumes no placeholder number (MarshalValue returns NULL without
appending), while still emitting the IS NOT NULL text. -/
theorem C10_counterexample :
    (NewWhereClauseBuilder.AddCondition NewPostgreSQLMarshaler "c" "is_null"
      GoValue.null).2.params.length = 0 ∧
    (NewWhereClauseBuilder.AddCondition NewPostgreSQLMarshaler "c" "is_null"
      GoValue.null).2.placeholderCounter = 0 ∧
    (NewWhereClauseBuilder.AddCondition NewPostgreSQLMarshaler "c" "is_null"
      GoValue.null).1.clauses = ["c IS NOT NULL"] :=
  ⟨rfl, rfl, rfl⟩

/-- C10 (amended to non-nil operands): AddCondition with operator is_null
marshals the operand before dispatching, so one parameter is appended and
one placeholder number consumed, while the emitted condition text is
exactly the column followed by IS NULL or IS NOT NULL — the placeholder
never appears in it. -/
theorem C10_is_null_marshals_operand (b : WhereClauseBuilder) (m : PostgreSQLMarshaler)
    (column : String) (v : GoValue) (h : v ≠ GoValue.null) :
    (b.AddCondition m column "is_null" v).2.params = m.params ++ [v] ∧
    (b.AddCondition m column "is_null" v).2.placeholderCounter
      = m.placeholderCounter + 1 ∧
    (b.AddCondition m column "is_null" v).1.clauses
      = b.clauses ++ [column ++ isNullSuffix v] := by
  cases v
  case null => exact absurd rfl h
  case bool bb =>
    cases bb <;>
      simp [WhereClauseBuilder.AddCondition, PostgreSQLMarshaler.MarshalValue,
        PostgreSQLMarshaler.AddParam, PostgreSQLMarshaler.NextPlaceholder, isNullSuffix]
  all_goals
    simp [WhereClauseBuilder.AddCondition, PostgreSQLMarshaler.MarshalValue,
      PostgreSQLMarshaler.AddParam, PostgreSQLMarshaler.NextPlaceholder, isNullSuffix]

/-- C10 witness: a concrete boolean-true operand is appended to the
parameter list, a placeholder number is consumed and the condition text is
the column plus IS NULL. -/
theorem C10_witness :
    (GoValue.bool true ≠ GoValue.null) ∧
    ((NewWhereClauseBuilder.AddCondition NewPostgreSQLMarshaler "c" "is_null"
       (GoValue.bool true)).2.params
        = NewPostgreSQLMarshaler.params ++ [GoValue.bool true] ∧
     (NewWhereClauseBuilder.AddCondition NewPostgreSQLMarshaler "c" "is_null"
       (GoValue.bool true)).2.placeholderCounter
        = NewPostgreSQLMarshaler.placeholderCounter + 1 ∧
     (NewWhereClauseBuilder.AddCondition NewPostgreSQLMarshaler "c" "is_null"
       (GoValue.bool true)).1.clauses
        = NewWhereClauseBuilder.clauses ++ ["c" ++ isNullSuffix (GoValue.bool true)]) :=
  ⟨by simp,
   C10_is_null_marshals_operand NewWhereClauseBuilder NewPostgreSQLMarshaler "c"
     (GoValue.bool true) (by simp)⟩

/-! Claim C5. -/

/-- C5: Validate returns a non-empty finding list when DistinctOn and
GroupBy are both non-empty, and when Having is non-empty while GroupBy is
empty; it returns the empty list for a plain SELECT (no DistinctOn, no
GroupBy, no Having, no row locking — only Where, OrderBy and Limit set);
and BuildSelect runs this validation and returns its findings alongside
the generated text rather than aborting. -/
theorem C5_validate_findings (o : PostgreSQLSelectOptions) :
    (0 < o.distinctOn.length → 0 < o.groupBy.length → o.Validate ≠ []) ∧
    (0 < o.having.length → o.groupBy = [] → o.Validate ≠ []) ∧
    (o.distinctOn = [] → o.groupBy = [] → o.having = [] → o.forUpdate = false →
      o.Validate = []) ∧
    (BuildSelect o).2 = o.Validate := by
  refine ⟨?_, ?_, ?_, rfl⟩
  · intro hd hg
    have hmem : ValidationError.mk "DistinctOn/GroupBy"
        "DISTINCT ON and GROUP BY should not be used together; they serve similar purposes"
        ∈ o.Validate := by
      simp [PostgreSQLSelectOptions.Validate, hd, hg]
    exact List.ne_nil_of_mem hmem
  · intro hh hg
    have hmem : ValidationError.mk "Having" "HAVING clause requires GROUP BY"
        ∈ o.Validate := by
      simp [PostgreSQLSelectOptions.Validate, hh, hg]
    exact List.ne_nil_of_mem hmem
  · intro hd hg hh hf
    simp [PostgreSQLSelectOptions.Validate, hd, hg, hh, hf]

/-- C5 witness: concrete option records for the three validation shapes,
plus the BuildSelect pairing on the first. -/
theorem C5_witness :
    ({ distinctOn := ["a"], groupBy := ["b"] } : PostgreSQLSelectOptions).Validate ≠ [] ∧
    ({ having := ["count(*) > 1"] } : PostgreSQLSelectOptions).Validate ≠ [] ∧
    ({ whereList := ["u.\"age\" > $1"],
       orderBy := [{ column := "u.\"name\"", direction := OrderDirection.asc }],
       limit := "10" } : PostgreSQLSelectOptions).Validate = [] ∧
    (BuildSelect { distinctOn := ["a"], groupBy := ["b"] }).2
      = ({ distinctOn := ["a"], groupBy := ["b"] } : PostgreSQLSelectOptions).Validate :=
  ⟨(C5_validate_findings _).1 (by decide) (by decide),
   (C5_validate_findings _).2.1 (by decide) rfl,
   (C5_validate_findings _).2.2.1 rfl rfl rfl rfl,
   (C5_validate_findings _).2.2.2⟩

/-! Claim C9. -/

/-- C9: the alias computation typeName[:1] of the converters is undefined
on an empty type name: a nil return type is reported as an error, but a
non-nil return type unwrapping to an empty name makes ConvertToSelect hit
the out-of-range slice (a panic, not an error), and an empty typeName
argument does the same in ConvertToUpdate and ConvertToDelete. -/
theorem C9_alias_slice_panics :
    (∀ c args sel, ConvertToSelect c none args sel
      = ConvOutcome.failed "cannot determine return type") ∧
    (∀ c args sel rt, unwrapTypeName (some rt) = "" →
      ConvertToSelect c (some rt) args sel = ConvOutcome.panicked) ∧
    (∀ c w s r, ConvertToUpdate c "" w s r = ConvOutcome.panicked) ∧
    (∀ c w r, ConvertToDelete c "" w r = ConvOutcome.panicked) := by
  refine ⟨fun c args sel => rfl, ?_, ?_, ?_⟩
  · intro c args sel rt h
    simp [ConvertToSelect, h, goSliceTo]
  · intro c w s r
    simp [ConvertToUpdate, goSliceTo]
  · intro c w r
    simp [ConvertToDelete, goSliceTo]

/-- C9 witness: a return type with an empty name panics ConvertToSelect,
and the empty type name panics ConvertToUpdate and ConvertToDelete. -/
theorem C9_witness :
    unwrapTypeName (some (TypeRef.mk "" false false none)) = "" ∧
    ConvertToSelect emptyConverter (some (TypeRef.mk "" false false none)) [] none
      = ConvOutcome.panicked ∧
    ConvertToUpdate emptyConverter "" [] [] [] = ConvOutcome.panicked ∧
    ConvertToDelete emptyConverter "" [] [] = ConvOutcome.panicked :=
  ⟨rfl,
   C9_alias_slice_panics.2.1 emptyConverter [] none (TypeRef.mk "" false false none) rfl,
   C9_alias_slice_panics.2.2.1 emptyConverter [] [] [],
   C9_alias_slice_panics.2.2.2 emptyConverter [] []⟩

/-! Claim C2. -/

/-- Strings of length zero are empty. -/
theorem eq_empty_of_length_zero (s : String) (h : s.length = 0) : s = "" := by
  cases s with
  | mk data =>
    cases data with
    | nil => rfl
    | cons c cs => simp [String.length] at h

/-- Appending to a non-empty string on the left stays non-empty. -/
theorem append_ne_empty_left (a b : String) (h : a ≠ "") : a ++ b ≠ "" := by
  intro hc
  have hl := congrArg String.length hc
  rw [String.length_append] at hl
  have h0 : String.length "" = 0 := rfl
  exact h (eq_empty_of_length_zero a (by omega))

/-- Appending a non-empty string on the right stays non-empty. -/
theorem append_ne_empty_right (a b : String) (h : b ≠ "") : a ++ b ≠ "" := by
  intro hc
  have hl := congrArg String.length hc
  rw [String.length_append] at hl
  have h0 : String.length "" = 0 := rfl
  exact h (eq_empty_of_length_zero b (by omega))

/-- Intercalation of a single clause is the clause. -/
theorem intercalate_singleton (sep x : String) : String.intercalate sep [x] = x := rfl

/-- Non-empty strings have at least one character. -/
theorem one_le_length_of_ne_empty (s : String) (h : s ≠ "") : 1 ≤ s.length := by
  cases s with
  | mk data =>
    cases data with
    | nil => exact absurd rfl h
    | cons c cs => simp [String.length]

/-- Slicing the first byte succeeds on a non-empty string. -/
theorem goSliceTo_one (s : String) (h : s ≠ "") :
    goSliceTo s 1 = some (String.mk (s.toList.take 1)) := by
  simp [goSliceTo, one_le_length_of_ne_empty s h]

/-- C2 counterexample: the claim as stated fails for the limit argument.
Converting with argument limit = 10 produces a query whose text contains
the literal LIMIT 10, while the registered parameter list is empty — the
value was interpolated as literal text, not bound to a placeholder. -/
theorem C2_counterexample :
    convOutcomeParams (ConvertToSelect emptyConverter
        (some (TypeRef.mk "User" false false none)) [("limit", GoValue.int 10)]
        (some selIdOnly))
      = some [] ∧
    convOutcomeQuery (ConvertToSelect emptyConverter
        (some (TypeRef.mk "User" false false none)) [("limit", GoValue.int 10)]
        (some selIdOnly))
      = some "SELECT u.\"id\"\nFROM \"user\" u\nLIMIT 10" :=
  ⟨rfl, rfl⟩

/-- C2 (amended): filter operands and the id argument are registered with
the marshaler and appear via placeholders, but limit/first, offset/skip
and the hasMany relation field's limit argument are rendered with the %v
formatting (goFormatV) directly into the SQL text, bypassing the
marshaler (processSelField does not even receive the marshaler). -/
theorem C2_argument_binding (c : SQLConverter) (opts : PostgreSQLSelectOptions)
    (m : PostgreSQLMarshaler) :
    (∀ v, processArguments c [("limit", v)] opts m = ({ opts with limit := goFormatV v }, m)) ∧
    (∀ v, processArguments c [("first", v)] opts m = ({ opts with limit := goFormatV v }, m)) ∧
    (∀ v, processArguments c [("offset", v)] opts m = ({ opts with offset := goFormatV v }, m)) ∧
    (∀ v, processArguments c [("skip", v)] opts m = ({ opts with offset := goFormatV v }, m)) ∧
    (∀ v, v ≠ GoValue.null →
      processArguments c [("id", v)] opts m =
        ({ opts with whereList := opts.whereList
            ++ [opts.tableAlias ++ ".id = " ++ ("$" ++ toString (m.placeholderCounter + 1))] },
         { placeholderCounter := m.placeholderCounter + 1, params := m.params ++ [v] })) ∧
    (∀ v, v ≠ GoValue.null →
      processArguments c [("where", GoValue.obj [("age", GoValue.obj [("_gt", v)])])] opts m =
        ({ opts with whereList := opts.whereList
            ++ [opts.tableAlias ++ "." ++ QuoteIdentifier (toSnakeCase "age") ++ " > "
                ++ ("$" ++ toString (m.placeholderCounter + 1))] },
         { placeholderCounter := m.placeholderCounter + 1, params := m.params ++ [v] })) ∧
    (∀ typeName tableAlias field cfg v,
      assocLookup c.joinConfig (typeName ++ "." ++ field.name) = some cfg →
      field.GetName ≠ "" →
      assocLookup field.arguments "limit" = some v →
      cfg.relationType = "hasMany" → field.HasSelection = true →
      ∃ cols j, processSelField c typeName tableAlias field = some (cols, [j]) ∧
        j.limit = goFormatV v) := by
  refine ⟨?_, ?_, ?_, ?_, ?_, ?_, ?_⟩
  · intro v; rfl
  · intro v; rfl
  · intro v; rfl
  · intro v; rfl
  · intro v hv
    simp [processArguments, assocLookup, MarshalValue_of_ne_null m v hv,
      PostgreSQLMarshaler.AddParam, PostgreSQLMarshaler.NextPlaceholder]
  · intro v hv
    have hne : opts.tableAlias ++ "." ++ QuoteIdentifier (toSnakeCase "age") ++ " > "
        ++ ("$" ++ toString (m.placeholderCounter + 1)) ≠ "" :=
      append_ne_empty_right _ _ (append_ne_empty_left "$" _ (by decide))
    simp [processArguments, assocLookup, buildWhereFromFilter, whereEntry, whereOps,
      WhereClauseBuilder.AddCondition, convertGraphQLOperator,
      MarshalValue_of_ne_null m v hv, PostgreSQLMarshaler.AddParam,
      PostgreSQLMarshaler.NextPlaceholder, NewWhereClauseBuilder,
      WhereClauseBuilder.Build, WhereClauseBuilder.AddRaw,
      intercalate_singleton, hne]
  · intro typeName tableAlias field cfg v hcfg hname hlim hrel hsel
    have hja : joinAliasOf field = some (String.mk (field.GetName.toList.take 1)
        ++ "_" ++ String.mk (field.name.toList.take (min 3 field.name.length))) := by
      simp [joinAliasOf, goSliceTo_one field.GetName hname]
    simp only [processSelField, hcfg, hja]
    refine ⟨_, _, rfl, ?_⟩
    simp [hrel, hsel, hlim]

/-- C2 witness: concrete runs — the limit value 10 is written into the
options as literal text 10 with the marshaler untouched; the id value 7
and the filter operand 18 become placeholder $1 with the value registered;
the posts limit argument 2 becomes the subquery limit text 2. -/
theorem C2_witness :
    processArguments emptyConverter [("limit", GoValue.int 10)] { tableAlias := "u" }
        NewPostgreSQLMarshaler
      = ({ tableAlias := "u", limit := "10" }, NewPostgreSQLMarshaler) ∧
    (GoValue.int 7 ≠ GoValue.null) ∧
    processArguments emptyConverter [("id", GoValue.int 7)] { tableAlias := "u" }
        NewPostgreSQLMarshaler
      = ({ tableAlias := "u", whereList := ["u.id = $1"] },
         { placeholderCounter := 1, params := [GoValue.int 7] }) ∧
    processArguments emptyConverter
        [("where", GoValue.obj [("age", GoValue.obj [("_gt", GoValue.int 18)])])]
        { tableAlias := "u" } NewPostgreSQLMarshaler
      = ({ tableAlias := "u", whereList := ["u.\"age\" > $1"] },
         { placeholderCounter := 1, params := [GoValue.int 18] }) ∧
    (assocLookup userConverter.joinConfig ("User" ++ "." ++ postsField.name)
        = some userPostsCfg ∧
     postsField.GetName ≠ "" ∧
     assocLookup postsField.arguments "limit" = some (GoValue.int 2) ∧
     userPostsCfg.relationType = "hasMany" ∧ postsField.HasSelection = true) ∧
    (∃ cols j, processSelField userConverter "User" "u" postsField = some (cols, [j]) ∧
      j.limit = goFormatV (GoValue.int 2)) := by
  refine ⟨?_, by simp, ?_, ?_, ⟨rfl, by decide, rfl, rfl, rfl⟩, ?_⟩
  · exact (C2_argument_binding emptyConverter { tableAlias := "u" }
      NewPostgreSQLMarshaler).1 (GoValue.int 10)
  · exact (C2_argument_binding emptyConverter { tableAlias := "u" }
      NewPostgreSQLMarshaler).2.2.2.2.1 (GoValue.int 7) (by simp)
  · exact (C2_argument_binding emptyConverter { tableAlias := "u" }
      NewPostgreSQLMarshaler).2.2.2.2.2.1 (GoValue.int 18) (by simp)
  · exact (C2_argument_binding userConverter { tableAlias := "u" }
      NewPostgreSQLMarshaler).2.2.2.2.2.2 "User" "u" postsField userPostsCfg
      (GoValue.int 2) rfl (by decide) rfl rfl rfl

/-! Claim C7. -/

/-- C7: for a selected sub-field with a join configuration, the emitted
join, when the relation kind is hasMany and the nested selection is
non-empty, has kind LEFT JOIN LATERAL (the rendered keyword) with the
subquery columns, the correlated WHERE equating the target column with
the parent alias's source column, and the limit argument, if present,
as the subquery LIMIT; otherwise the join keeps the configured kind with
the plain ON condition and no subquery fields. -/
theorem C7_hasmany_lateral (c : SQLConverter) (typeName tableAlias : String)
    (field : SelectedField) (cfg : JoinConfig)
    (hcfg : assocLookup c.joinConfig (typeName ++ "." ++ field.name) = some cfg)
    (hname : field.GetName ≠ "") :
    ∃ ja cols j, joinAliasOf field = some ja ∧
      processSelField c typeName tableAlias field = some (cols, [j]) ∧
      j.onCond = tableAlias ++ "." ++ QuoteIdentifier cfg.sourceColumn ++ " = "
        ++ ja ++ "." ++ QuoteIdentifier cfg.targetColumn ∧
      ((cfg.relationType = "hasMany" ∧ field.HasSelection = true) →
        j.joinType = JoinType.leftLateral ∧
        FormatJoinType j.joinType = "LEFT JOIN LATERAL" ∧
        j.subqueryColumns = (subFieldsOf field).map (fun sub =>
          c.getColumnName (unwrapFieldType typeName field.name c.schema) sub.name) ∧
        j.subqueryWhere = QuoteIdentifier cfg.targetColumn ++ " = " ++ tableAlias
          ++ "." ++ QuoteIdentifier cfg.sourceColumn ∧
        j.limit = (match assocLookup field.arguments "limit" with
          | some v => goFormatV v
          | none => "")) ∧
      (¬ (cfg.relationType = "hasMany" ∧ field.HasSelection = true) →
        j.joinType = cfg.joinType ∧ j.subqueryColumns = [] ∧ j.subqueryWhere = ""
          ∧ j.subqueryOrderBy = "" ∧ j.limit = "") := by
  have hja : joinAliasOf field = some (String.mk (field.GetName.toList.take 1)
      ++ "_" ++ String.mk (field.name.toList.take (min 3 field.name.length))) := by
    simp [joinAliasOf, goSliceTo_one field.GetName hname]
  simp only [processSelField, hcfg, hja]
  refine ⟨_, _, _, rfl, rfl, ?_, ?_, ?_⟩
  · by_cases hb : (cfg.relationType == "hasMany" && field.HasSelection) = true <;>
      simp [hb]
  · rintro ⟨hrel, hsel⟩
    have hb : (cfg.relationType == "hasMany" && field.HasSelection) = true := by
      simp [hrel, hsel]
    simp [hb, FormatJoinType]
  · intro hn
    have hb : (cfg.relationType == "hasMany" && field.HasSelection) = false := by
      by_cases h1 : cfg.relationType = "hasMany"
      · by_cases h2 : field.HasSelection = true
        · exact absurd ⟨h1, h2⟩ hn
        · simp [Bool.not_eq_true] at h2
          simp [h2]
      · simp [beq_iff_eq, h1]
    simp [hb]

/-- C7 witness: the concrete posts relation yields a LEFT JOIN LATERAL
join with subquery columns, correlated WHERE and limit 2. -/
theorem C7_witness :
    (assocLookup userConverter.joinConfig ("User" ++ "." ++ postsField.name)
        = some userPostsCfg ∧ postsField.GetName ≠ "") ∧
    (∃ ja cols j, joinAliasOf postsField = some ja ∧
      processSelField userConverter "User" "u" postsField = some (cols, [j]) ∧
      j.onCond = "u" ++ "." ++ QuoteIdentifier userPostsCfg.sourceColumn ++ " = "
        ++ ja ++ "." ++ QuoteIdentifier userPostsCfg.targetColumn ∧
      ((userPostsCfg.relationType = "hasMany" ∧ postsField.HasSelection = true) →
        j.joinType = JoinType.leftLateral ∧
        FormatJoinType j.joinType = "LEFT JOIN LATERAL" ∧
        j.subqueryColumns = (subFieldsOf postsField).map (fun sub =>
          userConverter.getColumnName
            (unwrapFieldType "User" postsField.name userConverter.schema) sub.name) ∧
        j.subqueryWhere = QuoteIdentifier userPostsCfg.targetColumn ++ " = " ++ "u"
          ++ "." ++ QuoteIdentifier userPostsCfg.sourceColumn ∧
        j.limit = (match assocLookup postsField.arguments "limit" with
          | some v => goFormatV v
          | none => "")) ∧
      (¬ (userPostsCfg.relationType = "hasMany" ∧ postsField.HasSelection = true) →
        j.joinType = userPostsCfg.joinType ∧ j.subqueryColumns = []
          ∧ j.subqueryWhere = "" ∧ j.subqueryOrderBy = "" ∧ j.limit = "")) :=
  ⟨⟨rfl, by decide⟩,
   C7_hasmany_lateral userConverter "User" "u" postsField userPostsCfg rfl (by decide)⟩

/-! Claim C8. -/

/-- C8 (code bug in the list form): with orderBy supplied as a list whose
entry requests direction DESC, the direction keyword is baked into the
column text by OrderByBuilder.Add while the OrderBy record is tagged
ascending, so BuildSelect renders the contradictory ORDER BY ... DESC ASC;
the single-object form sets the direction correctly. -/
theorem C8_orderby_list_direction_bug :
    (processArguments emptyConverter argsOrderByList { tableAlias := "u" }
        NewPostgreSQLMarshaler).1.orderBy
      = [{ column := "u.\"name\" DESC", direction := OrderDirection.asc }] ∧
    convOutcomeQuery (ConvertToSelect emptyConverter
        (some (TypeRef.mk "User" false false none)) argsOrderByList (some selNameOnly))
      = some "SELECT u.\"name\"\nFROM \"user\" u\nORDER BY u.\"name\" DESC ASC" ∧
    (processArguments emptyConverter argsOrderByObj { tableAlias := "u" }
        NewPostgreSQLMarshaler).1.orderBy
      = [{ column := "u.\"name\"", direction := OrderDirection.desc }] :=
  ⟨rfl, rfl, rfl⟩

/-! Claim C3. -/

/-- C3 (code bug): CollectFields converts the field map to the result slice
by ranging over a Go map, whose range order is unspecified; the identity
and the reversal of the insertion order are both admissible range orders
(both permute the entries), and on the document with fields a and b they
produce observably different selection trees — collection is not a
deterministic function of its inputs, and the first-encountered order is
not guaranteed. -/
theorem C3_collect_order_nondeterminism :
    (∀ l : List (String × SelectedField), List.Perm ((fun x => x) l) l) ∧
    (∀ l : List (String × SelectedField), List.Perm (List.reverse l) l) ∧
    ((CollectFields (fun l => l) { typeMap := [] } [] [] 8 (some docTwoFields) "Q").map
      (fun ss => ss.fields.map SelectedField.name) = some ["a", "b"]) ∧
    ((CollectFields List.reverse { typeMap := [] } [] [] 8 (some docTwoFields) "Q").map
      (fun ss => ss.fields.map SelectedField.name) = some ["b", "a"]) ∧
    (some ["a", "b"] : Option (List String)) ≠ some ["b", "a"] :=
  ⟨fun l => List.Perm.refl l, fun l => List.reverse_perm l, rfl, rfl, by decide⟩

/-! Claim C6. -/

/-- A Go map assignment is visible at its own key. -/
theorem assocLookup_mapSet_self (res : List (String × GoValue)) (k : String) (v : GoValue) :
    assocLookup (mapSet res k v) k = some v := by
  induction res with
  | nil => simp [mapSet, assocLookup]
  | cons p rest ih =>
    obtain ⟨k2, v2⟩ := p
    by_cases h : (k2 == k) = true
    · simp [mapSet, assocLookup, h]
    · simp [mapSet, assocLookup, h, ih]

/-- A Go map assignment leaves other keys untouched. -/
theorem assocLookup_mapSet_ne (res : List (String × GoValue)) (k q : String) (v : GoValue)
    (h : q ≠ k) : assocLookup (mapSet res k v) q = assocLookup res q := by
  have hkq : (k == q) = false := by
    simp [beq_iff_eq]
    exact fun hh => h hh.symm
  induction res with
  | nil => simp [mapSet, assocLookup, hkq]
  | cons p rest ih =>
    obtain ⟨k2, v2⟩ := p
    by_cases h2 : (k2 == k) = true
    · have hk2 : k2 = k := by simpa [beq_iff_eq] using h2
      subst hk2
      simp [mapSet, assocLookup, h2, hkq]
    · simp only [mapSet, h2, if_false, Bool.false_eq_true]
      by_cases h3 : (k2 == q) = true
      · simp [assocLookup, h3]
      · simp [assocLookup, h3, ih]

/-- The executor loop only appends to the error list. -/
theorem execFieldsLoop_errs_prefix
    (f : SelectedField → String → List PathElem → Except String GoValue)
    (pt : String) (path : List PathElem) :
    ∀ (fields : List SelectedField) (res : List (String × GoValue)) (errsAcc : List GError),
      ∃ newErrs, (execFieldsLoop f fields pt path (res, errsAcc)).2 = errsAcc ++ newErrs := by
  intro fields
  induction fields with
  | nil => intro res errsAcc; exact ⟨[], by simp [execFieldsLoop]⟩
  | cons g rest ih =>
    intro res errsAcc
    cases hg : f g pt (path ++ [PathElem.key g.GetName]) with
    | error msg =>
      obtain ⟨ne2, hne2⟩ := ih (mapSet res g.GetName GoValue.null)
        (errsAcc ++ [GError.mk msg (path ++ [PathElem.key g.GetName])])
      refine ⟨GError.mk msg (path ++ [PathElem.key g.GetName]) :: ne2, ?_⟩
      simp only [execFieldsLoop, hg]
      rw [hne2]
      simp
    | ok v =>
      obtain ⟨ne2, hne2⟩ := ih (mapSet res g.GetName v) errsAcc
      refine ⟨ne2, ?_⟩
      simp only [execFieldsLoop, hg]
      rw [hne2]

/-- The executor loop does not touch result keys outside the processed
fields. -/
theorem execFieldsLoop_lookup_notin
    (f : SelectedField → String → List PathElem → Except String GoValue)
    (pt : String) (path : List PathElem) (q : String) :
    ∀ (fields : List SelectedField) (acc : List (String × GoValue) × List GError),
      q ∉ fields.map SelectedField.GetName →
      assocLookup (execFieldsLoop f fields pt path acc).1 q = assocLookup acc.1 q := by
  intro fields
  induction fields with
  | nil => intro acc _; rfl
  | cons g rest ih =>
    intro acc hq
    have hq1 : q ≠ g.GetName := by
      intro hc
      exact hq (by simp [hc])
    have hq2 : q ∉ rest.map SelectedField.GetName := by
      intro hc
      exact hq (by simp [hc])
    cases hg : f g pt (path ++ [PathElem.key g.GetName]) with
    | error msg =>
      simp only [execFieldsLoop, hg]
      rw [ih _ hq2]
      exact assocLookup_mapSet_ne _ _ _ _ hq1
    | ok v =>
      simp only [execFieldsLoop, hg]
      rw [ih _ hq2]
      exact assocLookup_mapSet_ne _ _ _ _ hq1

/-- In the executor loop, a field whose execution fails ends up nil in the
result map and its tagged error is in the final error list. -/
theorem execFieldsLoop_field_error
    (f : SelectedField → String → List PathElem → Except String GoValue)
    (pt : String) (path : List PathElem) (field : SelectedField) (msg : String) :
    ∀ (fields : List SelectedField) (acc : List (String × GoValue) × List GError),
      (fields.map SelectedField.GetName).Nodup →
      field ∈ fields →
      f field pt (path ++ [PathElem.key field.GetName]) = Except.error msg →
      assocLookup (execFieldsLoop f fields pt path acc).1 field.GetName
        = some GoValue.null ∧
      GError.mk msg (path ++ [PathElem.key field.GetName])
        ∈ (execFieldsLoop f fields pt path acc).2 := by
  intro fields
  induction fields with
  | nil => intro acc _ hmem; cases hmem
  | cons g rest ih =>
    intro acc hnd hmem herr
    rcases List.mem_cons.1 hmem with hg | hg
    · subst hg
      have hnotin : field.GetName ∉ rest.map SelectedField.GetName :=
        (List.nodup_cons.1 hnd).1
      simp only [execFieldsLoop, herr]
      constructor
      · rw [execFieldsLoop_lookup_notin f pt path field.GetName rest _ hnotin]
        exact assocLookup_mapSet_self _ _ _
      · obtain ⟨ne2, hne2⟩ := execFieldsLoop_errs_prefix f pt path rest
          (mapSet acc.1 field.GetName GoValue.null)
          (acc.2 ++ [GError.mk msg (path ++ [PathElem.key field.GetName])])
        rw [hne2]
        simp
    · have hnd2 := (List.nodup_cons.1 hnd).2
      cases hg2 : f g pt (path ++ [PathElem.key g.GetName]) with
      | error msg2 =>
        simp only [execFieldsLoop, hg2]
        exact ih _ hnd2 hg herr
      | ok v =>
        simp only [execFieldsLoop, hg2]
        exact ih _ hnd2 hg herr

/-- In the executor loop, a field whose execution succeeds keeps its
resolved value in the result map. -/
theorem execFieldsLoop_field_ok
    (f : SelectedField → String → List PathElem → Except String GoValue)
    (pt : String) (path : List PathElem) (field : SelectedField) (v : GoValue) :
    ∀ (fields : List SelectedField) (acc : List (String × GoValue) × List GError),
      (fields.map SelectedField.GetName).Nodup →
      field ∈ fields →
      f field pt (path ++ [PathElem.key field.GetName]) = Except.ok v →
      assocLookup (execFieldsLoop f fields pt path acc).1 field.GetName = some v := by
  intro fields
  induction fields with
  | nil => intro acc _ hmem; cases hmem
  | cons g rest ih =>
    intro acc hnd hmem hok
    rcases List.mem_cons.1 hmem with hg | hg
    · subst hg
      have hnotin : field.GetName ∉ rest.map SelectedField.GetName :=
        (List.nodup_cons.1 hnd).1
      simp only [execFieldsLoop, hok]
      rw [execFieldsLoop_lookup_notin f pt path field.GetName rest _ hnotin]
      exact assocLookup_mapSet_self _ _ _
    · have hnd2 := (List.nodup_cons.1 hnd).2
      cases hg2 : f g pt (path ++ [PathElem.key g.GetName]) with
      | error msg2 =>
        simp only [execFieldsLoop, hg2]
        exact ih _ hnd2 hg hok
      | ok v2 =>
        simp only [execFieldsLoop, hg2]
        exact ih _ hnd2 hg hok

/-- C6: a failing field does not abort executeSelectionSet: the data map is
still produced, the errors are appended to the incoming list, every
failing field's entry is nil with its error tagged by the field's response
path, and every succeeding sibling keeps its resolved value. -/
theorem C6_field_errors_localized
    (executeField : SelectedField → String → List PathElem → Except String GoValue)
    (ss : SelectionSet) (parentType : String) (path : List PathElem) (errs : List GError)
    (hne : ss.fields ≠ [])
    (hnd : (ss.fields.map SelectedField.GetName).Nodup)
    (htn : "__typename" ∉ ss.fields.map SelectedField.GetName) :
    ∃ result errsOut,
      executeSelectionSet executeField (some ss) parentType path errs
        = (some result, errsOut) ∧
      (∃ newErrs, errsOut = errs ++ newErrs) ∧
      (∀ field ∈ ss.fields, ∀ msg,
        executeField field parentType (path ++ [PathElem.key field.GetName])
          = Except.error msg →
        assocLookup result field.GetName = some GoValue.null ∧
        GError.mk msg (path ++ [PathElem.key field.GetName]) ∈ errsOut) ∧
      (∀ field ∈ ss.fields, ∀ v,
        executeField field parentType (path ++ [PathElem.key field.GetName])
          = Except.ok v →
        assocLookup result field.GetName = some v) := by
  have hlen : (ss.fields.length == 0) = false := by
    cases hf : ss.fields with
    | nil => exact absurd hf hne
    | cons a l => simp
  have hwrap : ∀ (r1 : List (String × GoValue)) (q : String), q ≠ "__typename" →
      assocLookup (if ss.typename then mapSet r1 "__typename" (GoValue.str parentType)
        else r1) q = assocLookup r1 q := by
    intro r1 q hq
    cases hty : ss.typename with
    | false => simp
    | true => simp [assocLookup_mapSet_ne _ _ _ _ hq]
  simp only [executeSelectionSet, hlen, Bool.false_eq_true, if_false]
  refine ⟨_, _, rfl, ?_, ?_, ?_⟩
  · exact execFieldsLoop_errs_prefix executeField parentType path ss.fields [] errs
  · intro field hmem msg herr
    have hq : field.GetName ≠ "__typename" := by
      intro hc
      exact htn (by rw [← hc]; exact List.mem_map_of_mem _ hmem)
    obtain ⟨h1, h2⟩ := execFieldsLoop_field_error executeField parentType path field msg
      ss.fields ([], errs) hnd hmem herr
    exact ⟨by rw [hwrap _ _ hq]; exact h1, h2⟩
  · intro field hmem v hok
    have hq : field.GetName ≠ "__typename" := by
      intro hc
      exact htn (by rw [← hc]; exact List.mem_map_of_mem _ hmem)
    have h1 := execFieldsLoop_field_ok executeField parentType path field v
      ss.fields ([], errs) hnd hmem hok
    rw [hwrap _ _ hq]
    exact h1

/-- C6 witness: a concrete two-field selection where bad fails and good
succeeds. -/
theorem C6_witness :
    (selBadGood.fields ≠ [] ∧
     (selBadGood.fields.map SelectedField.GetName).Nodup ∧
     "__typename" ∉ selBadGood.fields.map SelectedField.GetName) ∧
    (∃ result errsOut,
      executeSelectionSet execFieldStub (some selBadGood) "Query" [] []
        = (some result, errsOut) ∧
      (∃ newErrs, errsOut = [] ++ newErrs) ∧
      (∀ field ∈ selBadGood.fields, ∀ msg,
        execFieldStub field "Query" ([] ++ [PathElem.key field.GetName])
          = Except.error msg →
        assocLookup result field.GetName = some GoValue.null ∧
        GError.mk msg ([] ++ [PathElem.key field.GetName]) ∈ errsOut) ∧
      (∀ field ∈ selBadGood.fields, ∀ v,
        execFieldStub field "Query" ([] ++ [PathElem.key field.GetName])
          = Except.ok v →
        assocLookup result field.GetName = some v)) :=
  ⟨⟨by simp [selBadGood, SelectionSet.fields], by decide, by decide⟩,
   C6_field_errors_localized execFieldStub selBadGood "Query" [] []
     (by simp [selBadGood, SelectionSet.fields]) (by decide) (by decide)⟩

/-! Claim C4. -/

/-- C4 counterexample: two fragments spreading the same user field with a
nested id each.  The merge appends the second occurrence's nested fields
instead of unioning by response key, so the nested selection set carries
the duplicate response keys id, id — the claim's "no duplicate response
keys remaining at any depth" is false on this input. -/
theorem C4_counterexample :
    ((CollectFields (fun l => l) { typeMap := [] } fragsTwoUser [] 32
        (some docTwoSpreads) "Q").map
      (fun ss => ss.fields.map (fun f => (f.GetName, (subFieldsOf f).map SelectedField.GetName))))
      = some [("user", ["id", "id"])] ∧
    ¬ (["id", "id"] : List String).Nodup :=
  ⟨rfl, by decide⟩

/-- A failed lookup means the key is absent. -/
theorem assocLookup_eq_none {α : Type} (xs : List (String × α)) (k : String)
    (h : assocLookup xs k = none) : k ∉ xs.map Prod.fst := by
  induction xs with
  | nil => simp
  | cons p rest ih =>
    obtain ⟨k2, v⟩ := p
    by_cases h2 : (k2 == k) = true
    · simp [assocLookup, h2] at h
    · have hk : k2 ≠ k := by simpa [beq_iff_eq] using h2
      simp only [assocLookup, h2, Bool.false_eq_true, if_false] at h
      simp only [List.map_cons, List.mem_cons]
      intro hc
      rcases hc with hc | hc
      · exact hk hc.symm
      · exact ih h hc

/-- In-place update keeps the key sequence. -/
theorem updateAssoc_map_fst (k : String) (f : SelectedField → SelectedField)
    (fm : List (String × SelectedField)) :
    (updateAssoc k f fm).map Prod.fst = fm.map Prod.fst := by
  induction fm with
  | nil => rfl
  | cons p rest ih =>
    obtain ⟨k2, v⟩ := p
    by_cases h : (k2 == k) = true <;> simp [updateAssoc, h, ih]

/-- The merge step rewrites only the nested selections, not the response
name. -/
theorem appendNested_GetName (nested : List SelectedField) (x : SelectedField) :
    (appendNested nested x).GetName = x.GetName := by
  cases x with
  | mk n a args sels dirs => cases sels <;> rfl

/-- In-place merge preserves the name-matches-key property. -/
theorem updateAssoc_inv (k : String) (nested : List SelectedField) :
    ∀ (fm : List (String × SelectedField)),
      (∀ p ∈ fm, p.2.GetName = p.1) →
      ∀ p ∈ updateAssoc k (appendNested nested) fm, p.2.GetName = p.1 := by
  intro fm
  induction fm with
  | nil => intro _ p hp; cases hp
  | cons q rest ih =>
    obtain ⟨k2, v⟩ := q
    intro hinv p hp
    by_cases h : (k2 == k) = true
    · simp only [updateAssoc, h, if_true] at hp
      rcases List.mem_cons.1 hp with hp | hp
      · subst hp
        show (appendNested nested v).GetName = k2
        rw [appendNested_GetName]
        exact hinv (k2, v) (List.mem_cons_self _ _)
      · exact hinv p (List.mem_cons_of_mem _ hp)
    · simp only [updateAssoc, h, Bool.false_eq_true, if_false] at hp
      rcases List.mem_cons.1 hp with hp | hp
      · subst hp
        exact hinv (k2, v) (List.mem_cons_self _ _)
      · exact ih (fun p2 hp2 => hinv p2 (List.mem_cons_of_mem _ hp2)) p hp

/-- The collector implementation preserves the fieldMap invariant at every
fuel, selection list, parent type and incoming state. -/
theorem collectImpl_inv
    (ord : List (String × SelectedField) → List (String × SelectedField))
    (schema : Schema) (fragments : List (String × FragmentDefinition))
    (vars : List (String × GoValue)) :
    ∀ (fuel : Nat) (sels : List ASTSelection) (pt : String) (st : CollectState),
      FieldMapInv st.fieldMap →
      FieldMapInv (collectImpl ord schema fragments vars fuel sels pt st).fieldMap := by
  intro fuel
  induction fuel with
  | zero => intro sels pt st h; simpa [collectImpl] using h
  | succ fuel ih =>
    intro sels pt st h
    cases sels with
    | nil => simpa [collectImpl] using h
    | cons selection rest =>
      simp only [collectImpl]
      apply ih
      cases selection with
      | field fieldAlias name args dirs selSet =>
        cases hinc : shouldInclude vars dirs with
        | false => simpa [hinc] using h
        | true =>
          by_cases hname : (name == "__typename") = true
          · simpa [hinc, hname] using h
          · simp only [hinc, hname, Bool.not_true, Bool.false_eq_true, if_false,
              Bool.not_false, if_true]
            cases hlk : assocLookup st.fieldMap
                (if fieldAlias == "" then name else fieldAlias) with
            | some ex =>
              cases selSet with
              | some ss =>
                simp only [hlk]
                exact ⟨by rw [updateAssoc_map_fst]; exact h.1,
                       updateAssoc_inv _ _ _ h.2⟩
              | none => simpa [hlk] using h
            | none =>
              simp only [hlk]
              constructor
              · have hk := assocLookup_eq_none _ _ hlk
                simp only [List.map_append, List.map_cons, List.map_nil]
                rw [List.nodup_append]
                exact ⟨h.1, List.nodup_singleton _, by
                  simp only [List.disjoint_singleton]
                  exact hk⟩
              · intro p hp
                rcases List.mem_append.1 hp with hp | hp
                · exact h.2 p hp
                · simp only [List.mem_singleton] at hp
                  subst hp
                  show (SelectedField.mk name fieldAlias (collectArguments vars args)
                    _ (collectDirectives vars dirs)).GetName = _
                  by_cases ha : (fieldAlias == "") = true
                  · have ha2 : fieldAlias = "" := by simpa [beq_iff_eq] using ha
                    simp [SelectedField.GetName, SelectedField.fieldAlias,
                      SelectedField.name, ha, ha2]
                  · simp [SelectedField.GetName, SelectedField.fieldAlias,
                      SelectedField.name, ha]
                    intro h2
                    exact absurd (by simp [h2]) ha
      | fragmentSpread name dirs =>
        cases hinc : shouldInclude vars dirs with
        | false => simpa [hinc] using h
        | true =>
          cases hfr : assocLookup fragments name with
          | none => simpa [hinc, hfr] using h
          | some fragment =>
            cases happ : typeApplies schema fragment.typeCondition pt with
            | false => simpa [hinc, hfr, happ] using h
            | true =>
              simp only [hinc, hfr, happ, Bool.not_true, Bool.false_eq_true, if_false,
                Bool.not_false, if_true]
              exact ih _ _ _ h
      | inlineFragment typeCondition dirs selSet =>
        cases hinc : shouldInclude vars dirs with
        | false => simpa [hinc] using h
        | true =>
          by_cases hcond : (typeCondition != ""
              && !(typeApplies schema typeCondition pt)) = true
          · simpa [hinc, hcond] using h
          · simp only [Bool.not_eq_true] at hcond
            simp only [hinc, hcond, Bool.not_true, Bool.false_eq_true, if_false,
              Bool.not_false, if_true]
            exact ih _ _ _ h

/-- C4 (amended): within the SelectionSet directly returned by one
CollectFields call, response keys are unique for every admissible map
range order; but occurrences sharing a response key are merged by
concatenating their collected nested fields, so duplicate response keys
can remain at nested depths, as the two-fragment document shows. -/
theorem C4_merge_concatenates_nested :
    (∀ (ord : List (String × SelectedField) → List (String × SelectedField)),
      (∀ l, List.Perm (ord l) l) →
      ∀ (schema : Schema) (fragments : List (String × FragmentDefinition))
        (vars : List (String × GoValue)) (fuel : Nat) (sels : List ASTSelection)
        (pt : String) (ss : SelectionSet),
        CollectFields ord schema fragments vars fuel (some sels) pt = some ss →
        (ss.fields.map SelectedField.GetName).Nodup) ∧
    ((CollectFields (fun l => l) { typeMap := [] } fragsTwoUser [] 32
        (some docTwoSpreads) "Q").map
      (fun ss => ss.fields.map (fun f => (f.GetName, (subFieldsOf f).map SelectedField.GetName))))
      = some [("user", ["id", "id"])] := by
  constructor
  · intro ord hord schema fragments vars fuel sels pt ss hcf
    simp only [CollectFields, Option.some.injEq] at hcf
    subst hcf
    have hinv := collectImpl_inv ord schema fragments vars fuel sels pt
      { fieldMap := [], typename := false } ⟨List.nodup_nil, fun p hp => by cases hp⟩
    simp only [emitFields, SelectionSet.fields, List.map_map]
    have hperm : List.Perm
        (ord (collectImpl ord schema fragments vars fuel sels pt
          { fieldMap := [], typename := false }).fieldMap)
        ((collectImpl ord schema fragments vars fuel sels pt
          { fieldMap := [], typename := false }).fieldMap) := hord _
    have hmapperm := hperm.map (fun p => (SelectedField.GetName ∘ Prod.snd) p)
    rw [List.Perm.nodup_iff hmapperm]
    have heq : ((collectImpl ord schema fragments vars fuel sels pt
        { fieldMap := [], typename := false }).fieldMap).map
          (fun p => (SelectedField.GetName ∘ Prod.snd) p)
        = ((collectImpl ord schema fragments vars fuel sels pt
        { fieldMap := [], typename := false }).fieldMap).map Prod.fst := by
      apply List.map_congr_left
      intro p hp
      exact hinv.2 p hp
    rw [heq]
    exact hinv.1
  · rfl

/-- C4 witness: the concrete two-fragment collection has unique top-level
response keys. -/
theorem C4_witness :
    ∃ ss, CollectFields (fun l => l) { typeMap := [] } fragsTwoUser [] 32
        (some docTwoSpreads) "Q" = some ss ∧
      (ss.fields.map SelectedField.GetName).Nodup := by
  refine ⟨_, rfl, ?_⟩
  exact C4_merge_concatenates_nested.1 (fun l => l) (fun l => List.Perm.refl l)
    { typeMap := [] } fragsTwoUser [] 32 docTwoSpreads "Q" _ rfl

end Goinmonster
